import Mathlib

/-!
Verification of the `cancellationtoken` library (the Set-based
`CancellationToken` implementation: class `CancellationToken` with
`create`, `onCancelled`, `dispose`, `timeout`, `all`, `race`,
`racePromise` and the static sentinels `CANCELLED` and `CONTINUE`).

The embedding is a small-step interpreter over an explicit store.
Tokens are identified by their index in `Store.tokens`; the closures
that the library stores in a token's callback `Set` are represented by
the inductive type `Cb`, whose constructors correspond exactly to the
closures the library creates (`handleNextTokenCancelled` of `all`,
`handleAnyTokenCancelled` of `race`, the rejection callback of
`racePromise`) plus an opaque constructor for consumer-supplied
callbacks.  A consumer callback's observable behaviour is recorded in
an event trace, and whether it throws is given by an environment
`env : Nat → Reason → Bool`.  `cancel` is fuel-indexed because a
countdown/race handler re-enters `cancel` on the combined token.
-/

/-- Cancellation reasons are opaque JavaScript values (`reason?: any`).
`undef` is `undefined` (a missing argument), `list` is the array of
reasons built by `all`, and `timedOutSentinel` is the sentinel value
(`CancellationToken.timeout` itself) that the timer of `timeout` passes
to `cancel` on expiry. -/
inductive Reason where
  | mk (n : Nat)
  | undef
  | timedOutSentinel
  | list (rs : List Reason)

/-- The closures that can sit in a token's callback `Set`.
`user` is an arbitrary consumer callback, `allHandler cell combined
inputs` is `handleNextTokenCancelled` (closing over the `countdown`
cell, the combined source and the input token list), `raceHandler
combined inputs` is `handleAnyTokenCancelled` (closing over the
combined source and the unregistration list), and `rejectPromise pid`
is the rejection callback registered by `racePromise`.  JavaScript
`Set` identity of two such closures coincides with equality of the
captured data, which is definitional equality here. -/
inductive Cb where
  | user (uid : Nat)
  | allHandler (cell : Nat) (combined : Nat) (inputs : List Nat)
  | raceHandler (combined : Nat) (inputs : List Nat)
  | rejectPromise (pid : Nat)
deriving DecidableEq

/-- The mutable fields of a `CancellationToken` object:
`_isCancelled`, `_canBeCancelled`, `_reason` and the optional callback
set `_callbacks` (which `dispose` deletes, modelled by `none`). -/
structure TokenState where
  _isCancelled : Bool
  _canBeCancelled : Bool
  _reason : Reason
  _callbacks : Option (List Cb)

/-- A settled outcome of the promise returned by `racePromise`:
a value, a rejection of the wrapped operation itself, or a
`CancellationError` carrying the cancellation reason. -/
inductive PromiseResult where
  | value (v : Nat)
  | opError (e : Nat)
  | cancelledErr (r : Reason)

/-- A token as produced by the private constructor
`new CancellationToken(false, true)` inside `create`. -/
def freshTok : TokenState :=
  { _isCancelled := false, _canBeCancelled := true, _reason := .undef,
    _callbacks := some [] }

/-- `CancellationToken.CANCELLED = new CancellationToken(true, true)`. -/
def cancelledTokInit : TokenState :=
  { _isCancelled := true, _canBeCancelled := true, _reason := .undef,
    _callbacks := some [] }

/-- `CancellationToken.CONTINUE = new CancellationToken(false, false)`. -/
def continueTokInit : TokenState :=
  { _isCancelled := false, _canBeCancelled := false, _reason := .undef,
    _callbacks := some [] }

/-- The whole mutable world: all token objects (indexed by identity),
the `countdown` cells captured by `all` handlers, the promises created
by `racePromise` (`none` = pending) and the trace of consumer-callback
invocations `(uid, reason)`. -/
structure Store where
  tokens : List TokenState
  cells : List Int
  promises : List (Option PromiseResult)
  events : List (Nat × Reason)

/-- Element lookup with an explicit default. -/
def nthD (d : α) : List α → Nat → α
  | [], _ => d
  | a :: _, 0 => a
  | _ :: l, n + 1 => nthD d l n

/-- Identity of the static `CANCELLED` token in the initial store. -/
def cancelledId : Nat := 0

/-- Identity of the static `CONTINUE` token in the initial store. -/
def continueId : Nat := 1

/-- The store holding just the two static sentinel tokens. -/
def initStore : Store :=
  { tokens := [cancelledTokInit, continueTokInit], cells := [],
    promises := [], events := [] }

/-- Read a token object.  All code paths of the library only ever
dereference identities of existing tokens, so the default is
irrelevant; `freshTok` keeps the function total. -/
def Store.getTok (s : Store) (tid : Nat) : TokenState :=
  nthD freshTok s.tokens tid

/-- Overwrite a token object (mutation of a token's fields). -/
def Store.setTok (s : Store) (tid : Nat) (t : TokenState) : Store :=
  { s with tokens := s.tokens.set tid t }

/-- Read a countdown cell. -/
def Store.getCell (s : Store) (c : Nat) : Int :=
  nthD 0 s.cells c

/-- Write a countdown cell. -/
def Store.setCell (s : Store) (c : Nat) (v : Int) : Store :=
  { s with cells := s.cells.set c v }

/-- `this._callbacks?.delete(cb)` on token `tid`: removes the callback
from the set if the set still exists, otherwise does nothing. -/
def Store.deleteCb (s : Store) (tid : Nat) (cb : Cb) : Store :=
  let t := s.getTok tid
  match t._callbacks with
  | none => s
  | some cbs => s.setTok tid { t with _callbacks := some (cbs.filter (fun c => c != cb)) }

/-- `this._callbacks?.add(cb)` insertion-order semantics of a JS `Set`:
adding an element that is already present leaves the set unchanged. -/
def addCb (cbs : List Cb) (cb : Cb) : List Cb :=
  if cbs.contains cb then cbs else cbs ++ [cb]

/-- `resolve`/`reject` on the promise `pid`: a promise settles at most
once, later settlement attempts are ignored. -/
def Store.settlePromise (s : Store) (pid : Nat) (res : PromiseResult) : Store :=
  match nthD none s.promises pid with
  | none => { s with promises := s.promises.set pid (some res) }
  | some _ => s

/-- Read the outcome of promise `pid` (`none` = still pending). -/
def Store.getPromise (s : Store) (pid : Nat) : Option PromiseResult :=
  nthD none s.promises pid

/-- The `dispose` closure built by `create`:
`token._canBeCancelled = token.isCancelled; delete token._callbacks`. -/
def Store.disposeTok (s : Store) (tid : Nat) : Store :=
  let t := s.getTok tid
  s.setTok tid { t with _canBeCancelled := t._isCancelled, _callbacks := none }

/-- One callback invocation `cb(reason)`, parameterised by the `cancel`
function used for re-entrant cancellation of a combined token.  The
returned `Bool` is `true` iff the invocation threw.
* `user`: records the invocation in the trace; throws iff `env` says so.
* `allHandler`: `if (--countdown === 0) combined.cancel(tokens.map(t => t._reason))`.
* `raceHandler`: `unregistrations.forEach(u => u()); combined.cancel(reason)`.
* `rejectPromise`: `reject(new CancellationError(reason))`. -/
def invokeCbWith (cancelFn : Store → Nat → Reason → Store × Bool)
    (env : Nat → Reason → Bool) (s : Store) (cb : Cb) (r : Reason) : Store × Bool :=
  match cb with
  | .user uid => ({ s with events := s.events ++ [(uid, r)] }, env uid r)
  | .allHandler cell combined inputs =>
    let v := s.getCell cell - 1
    let s1 := s.setCell cell v
    if v = 0 then
      let reasons := Reason.list (inputs.map (fun i => (s1.getTok i)._reason))
      cancelFn s1 combined reasons
    else (s1, false)
  | .raceHandler combined inputs =>
    let s1 := inputs.foldl (fun acc i => acc.deleteCb i cb) s
    cancelFn s1 combined r
  | .rejectPromise pid => (s.settlePromise pid (.cancelledErr r), false)

/-- `set.forEach(cb => cb(reason))` over the snapshot of the callback
set: invokes the callbacks in insertion order and stops at (and
propagates) the first exception, exactly as a thrown exception aborts
`forEach`. -/
def runCbsWith (cancelFn : Store → Nat → Reason → Store × Bool)
    (env : Nat → Reason → Bool) : Store → List Cb → Reason → Store × Bool
  | s, [], _ => (s, false)
  | s, cb :: rest, r =>
    let (s1, threw) := invokeCbWith cancelFn env s cb r
    if threw then (s1, true) else runCbsWith cancelFn env s1 rest r

/-- The `cancel` closure built by `create`:
if already cancelled, return; otherwise set `_isCancelled` and
`_reason`, invoke every stored callback with the reason, then
`dispose()`.  A callback exception aborts the broadcast, escapes
`cancel` (second component `true`) and skips the final `dispose()`.
The fuel bounds re-entrant cancellation depth; fuel `0` is never
reached in any run appearing in the theorems below. -/
def cancelToken (env : Nat → Reason → Bool) : Nat → Store → Nat → Reason → Store × Bool
  | 0, s, _, _ => (s, true)
  | fuel + 1, s, tid, r =>
    let t := s.getTok tid
    if t._isCancelled then (s, false)
    else
      let s1 := s.setTok tid { t with _isCancelled := true, _reason := r }
      match t._callbacks with
      | none => (s1.disposeTok tid, false)
      | some cbs =>
        let (s2, threw) := runCbsWith (cancelToken env fuel) env s1 cbs r
        if threw then (s2, true) else (s2.disposeTok tid, false)

/-- The value returned by `onCancelled`: either the shared `NOOP`
closure or the unregistration closure `() => this._callbacks?.delete(cb)`. -/
inductive Unreg where
  | noop
  | unregister (tid : Nat) (cb : Cb)
deriving DecidableEq

/-- Calling an unregistration function. -/
def applyUnreg (s : Store) : Unreg → Store
  | .noop => s
  | .unregister tid cb => s.deleteCb tid cb

/-- `token.onCancelled(cb)`:
not cancellable → `NOOP`; already cancelled → invoke `cb(this.reason)`
synchronously and return `NOOP`; otherwise add `cb` to the set and
return the unregistration closure. -/
def onCancelled (env : Nat → Reason → Bool) (fuel : Nat) (s : Store) (tid : Nat)
    (cb : Cb) : Store × Bool × Unreg :=
  let t := s.getTok tid
  if !t._canBeCancelled then (s, false, .noop)
  else if t._isCancelled then
    let (s1, threw) := invokeCbWith (cancelToken env fuel) env s cb t._reason
    (s1, threw, .noop)
  else
    match t._callbacks with
    | some cbs => (s.setTok tid { t with _callbacks := some (addCb cbs cb) }, false, .unregister tid cb)
    | none => (s, false, .unregister tid cb)

/-- `CancellationToken.create()`: allocate a fresh token; its identity
is the next unused index. -/
def Store.createTok (s : Store) : Store × Nat :=
  ({ s with tokens := s.tokens ++ [freshTok] }, s.tokens.length)

/-- `CancellationToken.all(...tokens)`:
if any input cannot be cancelled, return the `CONTINUE` sentinel with
no wiring; otherwise create a combined source, allocate the `countdown`
cell holding `tokens.length`, and register the shared
`handleNextTokenCancelled` on every input (which fires immediately on
inputs that are already cancelled). -/
def allModel (env : Nat → Reason → Bool) (fuel : Nat) (s : Store)
    (inputs : List Nat) : Store × Nat :=
  if inputs.any (fun i => !(s.getTok i)._canBeCancelled) then (s, continueId)
  else
    let p := s.createTok
    let cell := p.1.cells.length
    let s2 := { p.1 with cells := p.1.cells ++ [(inputs.length : Int)] }
    let h := Cb.allHandler cell p.2 inputs
    (inputs.foldl (fun acc i => (onCancelled env fuel acc i h).1) s2, p.2)

/-- `CancellationToken.race(...tokens)`:
if some input is already cancelled, return that token itself;
otherwise create a combined source and register the shared
`handleAnyTokenCancelled` on every input. -/
def raceModel (env : Nat → Reason → Bool) (fuel : Nat) (s : Store)
    (inputs : List Nat) : Store × Nat :=
  match inputs.find? (fun i => (s.getTok i)._isCancelled) with
  | some i => (s, i)
  | none =>
    let p := s.createTok
    let h := Cb.raceHandler p.2 inputs
    (inputs.foldl (fun acc i => (onCancelled env fuel acc i h).1) p.1, p.2)

/-- `token.racePromise(asyncOperation)`:
if the token can never be cancelled, return the operation itself
(`none` = the unchanged original promise); otherwise create a fresh
pending promise and register the rejection callback on the token. -/
def racePromiseModel (env : Nat → Reason → Bool) (fuel : Nat) (s : Store)
    (tid : Nat) : Store × Option Nat :=
  if !(s.getTok tid)._canBeCancelled then (s, none)
  else
    let pid := s.promises.length
    let s1 := { s with promises := s.promises ++ [none] }
    ((onCancelled env fuel s1 tid (.rejectPromise pid)).1, some pid)

/-- The settlement of the wrapped operation inside `racePromise`'s
executor: forward the outcome to the wrapper promise (which ignores it
if the wrapper already settled) and then call `unregister()`. -/
def opSettle (s : Store) (pid : Nat) (tid : Nat) (res : PromiseResult) : Store :=
  (s.settlePromise pid res).deleteCb tid (.rejectPromise pid)

/-- The state of the source returned by `CancellationToken.timeout`:
the underlying token plus the `timer` handle (`true` = armed). -/
structure TimeoutSource where
  token : Nat
  timer : Bool
deriving DecidableEq

/-- `CancellationToken.timeout(ms)`: create an underlying source and
arm the timer. -/
def timeoutModel (s : Store) : Store × TimeoutSource :=
  let p := s.createTok
  (p.1, { token := p.2, timer := true })

/-- `disposeTimer`: `if (timer == null) return; clearTimeout(timer);
timer = null` — the idempotent disarm. -/
def disposeTimer (ts : TimeoutSource) : TimeoutSource :=
  if ts.timer then { ts with timer := false } else ts

/-- Expiry of the armed timer: `originalCancel(CancellationToken.timeout)`.
A cleared (or already fired) timer never fires. -/
def timeoutFire (env : Nat → Reason → Bool) (fuel : Nat) (s : Store)
    (ts : TimeoutSource) : Store × TimeoutSource × Bool :=
  if ts.timer then
    let p := cancelToken env fuel s ts.token .timedOutSentinel
    (p.1, { ts with timer := false }, p.2)
  else (s, ts, false)

/-- The `cancel` returned by `timeout`: `disposeTimer(); originalCancel(reason)`. -/
def timeoutCancel (env : Nat → Reason → Bool) (fuel : Nat) (s : Store)
    (ts : TimeoutSource) (r : Reason) : Store × TimeoutSource × Bool :=
  let ts1 := disposeTimer ts
  let p := cancelToken env fuel s ts1.token r
  (p.1, ts1, p.2)

/-- The `dispose` returned by `timeout`: `disposeTimer(); originalDispose()`. -/
def timeoutDispose (s : Store) (ts : TimeoutSource) : Store × TimeoutSource :=
  (s.disposeTok ts.token, disposeTimer ts)

/-- The combined token that a handler closure re-enters `cancel` on,
if any: `allHandler` and `raceHandler` cancel their combined token,
the other callbacks never call `cancel`. -/
def cbTarget : Cb → Option Nat
  | .allHandler _ combined _ => some combined
  | .raceHandler combined _ => some combined
  | _ => none

/-- No callback registered anywhere in the store re-enters `cancel` on
token `tid`.  Holds for any token whose `cancel` capability was never
handed to a combinator — in particular for the sentinels and for the
token returned by `all()` of an empty list. -/
def noTarget (s : Store) (tid : Nat) : Bool :=
  s.tokens.all (fun ts =>
    match ts._callbacks with
    | none => true
    | some cbs => cbs.all (fun cb => cbTarget cb != some tid))

/-- The three fields of token `tid` that record its cancellation state
(everything except the callback set) agree between two stores. -/
def ScalarEq (s s' : Store) (tid : Nat) : Prop :=
  (s'.getTok tid)._isCancelled = (s.getTok tid)._isCancelled ∧
  (s'.getTok tid)._canBeCancelled = (s.getTok tid)._canBeCancelled ∧
  (s'.getTok tid)._reason = (s.getTok tid)._reason

/-- The token identities `2, …, n+1` of `n` sources created after the
two static sentinels. -/
def inputsList (n : Nat) : List Nat :=
  (List.range n).map (fun i => i + 2)

/-- The store after `n` independent `create()` calls: the two
sentinels followed by `n` fresh tokens (identities `2, …, n+1`). -/
def baseStore (n : Nat) : Store :=
  { tokens := [cancelledTokInit, continueTokInit] ++ List.replicate n freshTok,
    cells := [], promises := [], events := [] }

/-- The `handleNextTokenCancelled` closure of
`all(tokens of baseStore n)`: countdown cell `0`, combined token `n+2`. -/
def wiredAllCb (n : Nat) : Cb :=
  Cb.allHandler 0 (n + 2) (inputsList n)

/-- The state of input token `i` of the wired `all` while the run is in
progress: not yet cancelled with the countdown handler registered, or
cancelled with its reason recorded, its registry released by `dispose`
and `_canBeCancelled` reset to `true` by the `dispose` inside `cancel`. -/
def mkInputTok (n : Nat) : Option Reason → TokenState
  | none =>
    { _isCancelled := false, _canBeCancelled := true, _reason := .undef,
      _callbacks := some [wiredAllCb n] }
  | some r =>
    { _isCancelled := true, _canBeCancelled := true, _reason := r,
      _callbacks := none }

/-- The state of the combined token of the wired `all`: fresh until the
countdown fired, afterwards cancelled with the collected reasons. -/
def mkCombTok (n : Nat) (dl : List (Option Reason)) : TokenState :=
  if 0 < n ∧ dl.all Option.isSome then
    { _isCancelled := true, _canBeCancelled := true,
      _reason := .list (dl.map (fun o => o.getD .undef)), _callbacks := none }
  else freshTok

/-- The full store of the wired `all` run over `n` distinct fresh
sources, indexed by which inputs have been cancelled so far. -/
def allStore (n : Nat) (dl : List (Option Reason)) : Store :=
  { tokens := [cancelledTokInit, continueTokInit] ++ dl.map (mkInputTok n) ++ [mkCombTok n dl],
    cells := [(n : Int) - (dl.countP (fun o => o.isSome) : Int)],
    promises := [], events := [] }

/-- Cancel the sources of the listed inputs in order: entry `(i, r)`
cancels the `i`-th created source (token `i+2`) with reason `r`. -/
def applySeq (env : Nat → Reason → Bool) (fuel : Nat) : Store → List (Nat × Reason) → Store
  | s, [] => s
  | s, p :: rest => applySeq env fuel (cancelToken env fuel s (p.1 + 2) p.2).1 rest

/-- Which inputs a cancellation sequence has cancelled, with their
reasons. -/
def dlOf (n : Nat) (seq : List (Nat × Reason)) : List (Option Reason) :=
  seq.foldl (fun dl p => dl.set p.1 (some p.2)) (List.replicate n none)

/-- The `handleAnyTokenCancelled` closure of
`race(tokens of baseStore n)`: combined token `n+2`. -/
def wiredRaceCb (n : Nat) : Cb :=
  Cb.raceHandler (n + 2) (inputsList n)

/-- The store of the wired `race` over `n` distinct fresh sources
before any cancellation. -/
def raceStore (n : Nat) : Store :=
  { tokens := [cancelledTokInit, continueTokInit] ++
      List.replicate n { freshTok with _callbacks := some [wiredRaceCb n] } ++ [freshTok],
    cells := [], promises := [], events := [] }

/-- An environment in which no consumer callback ever throws. -/
def envNone : Nat → Reason → Bool := fun _ _ => false

/-- An environment in which exactly the consumer callback with id `0`
throws. -/
def envThrow0 : Nat → Reason → Bool := fun u _ => u == 0

/-- The effect of one `unregister()` call on a single token object:
delete the callback from the set if the set still exists. -/
def delCb (t : TokenState) (cb : Cb) : TokenState :=
  match t._callbacks with
  | none => t
  | some cbs => { t with _callbacks := some (cbs.filter (fun c => c != cb)) }

/-- A source token (identity `2`) with two consumer listeners
registered in order: `create()` followed by two `onCancelled` calls. -/
def twoListenerStore : Store :=
  (onCancelled envNone 1 (onCancelled envNone 1 (initStore.createTok).1 2 (.user 0)).1 2
    (.user 1)).1


/-! ### List indexing toolkit -/

theorem nthD_zero (d a : α) (l : List α) : nthD d (a :: l) 0 = a := rfl

theorem nthD_succ (d a : α) (l : List α) (n : Nat) : nthD d (a :: l) (n + 1) = nthD d l n := rfl

theorem nthD_nil (d : α) (n : Nat) : nthD d [] n = d := rfl

theorem nthD_set (d : α) : ∀ (l : List α) (i j : Nat) (v : α),
    nthD d (l.set i v) j = if i = j ∧ i < l.length then v else nthD d l j := by
  intro l
  induction l with
  | nil => intro i j v; simp [nthD_nil]
  | cons a l ih =>
    intro i j v
    cases i with
    | zero =>
      cases j with
      | zero => simp [List.set, nthD_zero]
      | succ j => simp [List.set, nthD_succ]
    | succ i =>
      cases j with
      | zero => simp [List.set, nthD_zero]
      | succ j =>
        rw [show ((a :: l).set (i + 1) v) = a :: l.set i v from rfl, nthD_succ, nthD_succ, ih]
        by_cases h : i = j ∧ i < l.length
        · rw [if_pos h, if_pos ⟨by omega, by simp; omega⟩]
        · rw [if_neg h, if_neg (by simp; omega)]

theorem nthD_append_left (d : α) : ∀ (l1 l2 : List α) (i : Nat), i < l1.length →
    nthD d (l1 ++ l2) i = nthD d l1 i := by
  intro l1
  induction l1 with
  | nil => intro l2 i h; simp at h
  | cons a l ih =>
    intro l2 i h
    cases i with
    | zero => rfl
    | succ i =>
      rw [List.cons_append, nthD_succ, nthD_succ]
      exact ih l2 i (by simpa using Nat.lt_of_succ_lt_succ h)

theorem nthD_append_right (d : α) : ∀ (l1 l2 : List α) (i : Nat),
    nthD d (l1 ++ l2) (l1.length + i) = nthD d l2 i := by
  intro l1
  induction l1 with
  | nil => intro l2 i; simp
  | cons a l ih =>
    intro l2 i
    rw [List.cons_append, List.length_cons, Nat.succ_add, nthD_succ]
    exact ih l2 i

theorem nthD_mem (d : α) : ∀ (l : List α) (i : Nat), i < l.length → nthD d l i ∈ l := by
  intro l
  induction l with
  | nil => intro i h; simp at h
  | cons a l ih =>
    intro i h
    cases i with
    | zero => exact List.mem_cons_self a l
    | succ i =>
      rw [nthD_succ]
      exact List.mem_cons_of_mem a (ih i (by simpa using Nat.lt_of_succ_lt_succ h))

theorem nthD_replicate (d d' : α) (n i : Nat) :
    nthD d (List.replicate n d') i = if i < n then d' else d := by
  induction n generalizing i with
  | zero => simp [nthD_nil]
  | succ n ih =>
    cases i with
    | zero => simp [List.replicate, nthD_zero]
    | succ i =>
      rw [List.replicate, nthD_succ, ih]
      by_cases h : i < n
      · rw [if_pos h, if_pos (by omega)]
      · rw [if_neg h, if_neg (by omega)]

theorem nthD_ext (d : α) : ∀ (l1 l2 : List α), l1.length = l2.length →
    (∀ i, i < l1.length → nthD d l1 i = nthD d l2 i) → l1 = l2 := by
  intro l1
  induction l1 with
  | nil =>
    intro l2 hl _
    cases l2 with
    | nil => rfl
    | cons b l2 => simp at hl
  | cons a l1 ih =>
    intro l2 hl hp
    cases l2 with
    | nil => simp at hl
    | cons b l2 =>
      have h0 := hp 0 (by simp)
      rw [nthD_zero, nthD_zero] at h0
      subst h0
      have htail := ih l2 (by simpa using hl) (fun i hi => by
        have := hp (i + 1) (by simpa using Nat.succ_lt_succ hi)
        rwa [nthD_succ, nthD_succ] at this)
      rw [htail]

theorem set_append_left : ∀ (l1 l2 : List α) (i : Nat) (v : α), i < l1.length →
    (l1 ++ l2).set i v = l1.set i v ++ l2 := by
  intro l1
  induction l1 with
  | nil => intro l2 i v h; simp at h
  | cons a l ih =>
    intro l2 i v h
    cases i with
    | zero => rfl
    | succ i =>
      rw [List.cons_append, List.set, List.set, List.cons_append,
        ih l2 i v (by simpa using Nat.lt_of_succ_lt_succ h)]

theorem set_append_right : ∀ (l1 l2 : List α) (i : Nat) (v : α),
    (l1 ++ l2).set (l1.length + i) v = l1 ++ l2.set i v := by
  intro l1
  induction l1 with
  | nil => intro l2 i v; simp
  | cons a l ih =>
    intro l2 i v
    rw [List.cons_append, List.length_cons, Nat.succ_add, List.set, ih, List.cons_append]

theorem map_set (f : α → β) : ∀ (l : List α) (i : Nat) (x : α),
    (l.map f).set i (f x) = (l.set i x).map f := by
  intro l
  induction l with
  | nil => intro i x; rfl
  | cons a l ih =>
    intro i x
    cases i with
    | zero => rfl
    | succ i =>
      rw [List.map_cons, show ((f a :: l.map f).set (i + 1) (f x)) = f a :: (l.map f).set i (f x) from rfl,
        show ((a :: l).set (i + 1) x) = a :: l.set i x from rfl, List.map_cons, ih]

/-! ### Unfolding equations for the interpreter -/

theorem deleteCb_eq (s : Store) (t : Nat) (cb : Cb) :
    s.deleteCb t cb =
      (match (s.getTok t)._callbacks with
       | none => s
       | some cbs =>
         s.setTok t { s.getTok t with _callbacks := some (cbs.filter (fun c => c != cb)) }) := rfl

theorem disposeTok_eq (s : Store) (t : Nat) :
    s.disposeTok t =
      s.setTok t
        { s.getTok t with _canBeCancelled := (s.getTok t)._isCancelled, _callbacks := none } := rfl

theorem cancelToken_zero (env : Nat → Reason → Bool) (s : Store) (tid : Nat) (r : Reason) :
    cancelToken env 0 s tid r = (s, true) := rfl

theorem cancelToken_succ (env : Nat → Reason → Bool) (fuel : Nat) (s : Store) (tid : Nat)
    (r : Reason) :
    cancelToken env (fuel + 1) s tid r =
      if (s.getTok tid)._isCancelled then (s, false)
      else
        (let s1 := s.setTok tid { s.getTok tid with _isCancelled := true, _reason := r }
         match (s.getTok tid)._callbacks with
         | none => (s1.disposeTok tid, false)
         | some cbs =>
           let p := runCbsWith (cancelToken env fuel) env s1 cbs r
           if p.2 then (p.1, true) else (p.1.disposeTok tid, false)) := rfl

theorem runCbs_nil (cancelFn : Store → Nat → Reason → Store × Bool)
    (env : Nat → Reason → Bool) (s : Store) (r : Reason) :
    runCbsWith cancelFn env s [] r = (s, false) := rfl

theorem runCbs_cons (cancelFn : Store → Nat → Reason → Store × Bool)
    (env : Nat → Reason → Bool) (s : Store) (cb : Cb) (rest : List Cb) (r : Reason) :
    runCbsWith cancelFn env s (cb :: rest) r =
      (let p := invokeCbWith cancelFn env s cb r
       if p.2 then (p.1, true) else runCbsWith cancelFn env p.1 rest r) := rfl

theorem invoke_user (cancelFn : Store → Nat → Reason → Store × Bool)
    (env : Nat → Reason → Bool) (s : Store) (uid : Nat) (r : Reason) :
    invokeCbWith cancelFn env s (.user uid) r =
      ({ s with events := s.events ++ [(uid, r)] }, env uid r) := rfl

theorem invoke_allHandler (cancelFn : Store → Nat → Reason → Store × Bool)
    (env : Nat → Reason → Bool) (s : Store) (cell combined : Nat) (inputs : List Nat)
    (r : Reason) :
    invokeCbWith cancelFn env s (.allHandler cell combined inputs) r =
      if s.getCell cell - 1 = 0 then
        cancelFn (s.setCell cell (s.getCell cell - 1)) combined
          (Reason.list (inputs.map (fun i => ((s.setCell cell (s.getCell cell - 1)).getTok i)._reason)))
      else (s.setCell cell (s.getCell cell - 1), false) := rfl

theorem invoke_raceHandler (cancelFn : Store → Nat → Reason → Store × Bool)
    (env : Nat → Reason → Bool) (s : Store) (combined : Nat) (inputs : List Nat) (r : Reason) :
    invokeCbWith cancelFn env s (.raceHandler combined inputs) r =
      cancelFn (inputs.foldl (fun acc i => acc.deleteCb i (Cb.raceHandler combined inputs)) s)
        combined r := rfl

theorem invoke_rejectPromise (cancelFn : Store → Nat → Reason → Store × Bool)
    (env : Nat → Reason → Bool) (s : Store) (pid : Nat) (r : Reason) :
    invokeCbWith cancelFn env s (.rejectPromise pid) r =
      (s.settlePromise pid (.cancelledErr r), false) := rfl

theorem onCancelled_eq (env : Nat → Reason → Bool) (fuel : Nat) (s : Store) (tid : Nat)
    (cb : Cb) :
    onCancelled env fuel s tid cb =
      if !(s.getTok tid)._canBeCancelled then (s, false, .noop)
      else if (s.getTok tid)._isCancelled then
        (let p := invokeCbWith (cancelToken env fuel) env s cb (s.getTok tid)._reason
         (p.1, p.2, Unreg.noop))
      else
        (match (s.getTok tid)._callbacks with
         | some cbs =>
           (s.setTok tid { s.getTok tid with _callbacks := some (addCb cbs cb) }, false,
             .unregister tid cb)
         | none => (s, false, .unregister tid cb)) := rfl

/-! ### Store operation lemmas -/

theorem getTok_setTok (s : Store) (t tid : Nat) (v : TokenState) :
    (s.setTok t v).getTok tid = if t = tid ∧ t < s.tokens.length then v else s.getTok tid := by
  simp [Store.setTok, Store.getTok, nthD_set]

theorem getTok_setCell (s : Store) (c : Nat) (x : Int) (tid : Nat) :
    (s.setCell c x).getTok tid = s.getTok tid := rfl

theorem getTok_settlePromise (s : Store) (pid : Nat) (res : PromiseResult) (tid : Nat) :
    (s.settlePromise pid res).getTok tid = s.getTok tid := by
  unfold Store.settlePromise
  cases nthD none s.promises pid <;> rfl

theorem tokensLength_setTok (s : Store) (t : Nat) (v : TokenState) :
    (s.setTok t v).tokens.length = s.tokens.length := by
  simp [Store.setTok]

theorem scalarEq_refl (s : Store) (tid : Nat) : ScalarEq s s tid := ⟨rfl, rfl, rfl⟩

theorem scalarEq_trans {s1 s2 s3 : Store} {tid : Nat}
    (h1 : ScalarEq s1 s2 tid) (h2 : ScalarEq s2 s3 tid) : ScalarEq s1 s3 tid :=
  ⟨h2.1.trans h1.1, h2.2.1.trans h1.2.1, h2.2.2.trans h1.2.2⟩

theorem scalarEq_setTok_ne (s : Store) (t tid : Nat) (v : TokenState) (h : t ≠ tid) :
    ScalarEq s (s.setTok t v) tid := by
  unfold ScalarEq
  rw [getTok_setTok, if_neg (by intro hc; exact h hc.1)]
  exact ⟨rfl, rfl, rfl⟩

theorem scalarEq_deleteCb (s : Store) (t : Nat) (cb : Cb) (tid : Nat) :
    ScalarEq s (s.deleteCb t cb) tid := by
  rw [deleteCb_eq]
  cases hcb : (s.getTok t)._callbacks with
  | none => exact scalarEq_refl s tid
  | some cbs =>
    unfold ScalarEq
    rw [getTok_setTok]
    by_cases hif : t = tid ∧ t < s.tokens.length
    · rw [if_pos hif]
      rcases hif with ⟨rfl, _⟩
      exact ⟨rfl, rfl, rfl⟩
    · rw [if_neg hif]
      exact ⟨rfl, rfl, rfl⟩

theorem scalarEq_disposeTok_ne (s : Store) (t tid : Nat) (h : t ≠ tid) :
    ScalarEq s (s.disposeTok t) tid := by
  rw [disposeTok_eq]
  exact scalarEq_setTok_ne s t tid _ h

theorem scalarEq_fold_deleteCb (cb : Cb) (tid : Nat) :
    ∀ (js : List Nat) (s : Store),
      ScalarEq s (js.foldl (fun acc i => acc.deleteCb i cb) s) tid := by
  intro js
  induction js with
  | nil => intro s; exact scalarEq_refl s tid
  | cons j js ih =>
    intro s
    exact scalarEq_trans (scalarEq_deleteCb s j cb tid) (ih (s.deleteCb j cb))

/-! ### Monotonicity: a cancelled token's scalar state is permanent -/

theorem invoke_mono (cancelFn : Store → Nat → Reason → Store × Bool)
    (env : Nat → Reason → Bool) (tid : Nat)
    (hf : ∀ s t r, (s.getTok tid)._isCancelled = true → ScalarEq s ((cancelFn s t r).1) tid) :
    ∀ (s : Store) (cb : Cb) (r : Reason), (s.getTok tid)._isCancelled = true →
      ScalarEq s ((invokeCbWith cancelFn env s cb r).1) tid := by
  intro s cb r hc
  cases cb with
  | user uid => exact scalarEq_refl _ tid
  | allHandler cell combined inputs =>
    rw [invoke_allHandler]
    by_cases hv : s.getCell cell - 1 = 0
    · rw [if_pos hv]
      have hc1 : ((s.setCell cell (s.getCell cell - 1)).getTok tid)._isCancelled = true := by
        rw [getTok_setCell]; exact hc
      have h2 := hf (s.setCell cell (s.getCell cell - 1)) combined
        (Reason.list (inputs.map (fun i => ((s.setCell cell (s.getCell cell - 1)).getTok i)._reason))) hc1
      refine scalarEq_trans ?_ h2
      unfold ScalarEq
      rw [getTok_setCell]
      exact ⟨rfl, rfl, rfl⟩
    · rw [if_neg hv]
      unfold ScalarEq
      rw [getTok_setCell]
      exact ⟨rfl, rfl, rfl⟩
  | raceHandler combined inputs =>
    rw [invoke_raceHandler]
    have h1 := scalarEq_fold_deleteCb (Cb.raceHandler combined inputs) tid inputs s
    have hc1 : ((inputs.foldl (fun acc i => acc.deleteCb i (Cb.raceHandler combined inputs)) s).getTok
        tid)._isCancelled = true := by
      rw [h1.1]; exact hc
    exact scalarEq_trans h1 (hf _ combined r hc1)
  | rejectPromise pid =>
    rw [invoke_rejectPromise]
    unfold ScalarEq
    rw [getTok_settlePromise]
    exact ⟨rfl, rfl, rfl⟩

theorem runCbs_mono (cancelFn : Store → Nat → Reason → Store × Bool)
    (env : Nat → Reason → Bool) (tid : Nat)
    (hf : ∀ s t r, (s.getTok tid)._isCancelled = true → ScalarEq s ((cancelFn s t r).1) tid) :
    ∀ (cbs : List Cb) (s : Store) (r : Reason), (s.getTok tid)._isCancelled = true →
      ScalarEq s ((runCbsWith cancelFn env s cbs r).1) tid := by
  intro cbs
  induction cbs with
  | nil => intro s r _; exact scalarEq_refl _ tid
  | cons cb rest ih =>
    intro s r hc
    rw [runCbs_cons]
    have h1 := invoke_mono cancelFn env tid hf s cb r hc
    by_cases ht : (invokeCbWith cancelFn env s cb r).2
    · simp only [ht, if_true]
      exact h1
    · simp only [ht, if_false, Bool.false_eq_true]
      have hc1 : (((invokeCbWith cancelFn env s cb r).1).getTok tid)._isCancelled = true := by
        rw [h1.1]; exact hc
      exact scalarEq_trans h1 (ih _ r hc1)

theorem cancel_mono (env : Nat → Reason → Bool) (tid : Nat) :
    ∀ (fuel : Nat) (s : Store) (t : Nat) (r : Reason),
      (s.getTok tid)._isCancelled = true →
      ScalarEq s ((cancelToken env fuel s t r).1) tid := by
  intro fuel
  induction fuel with
  | zero => intro s t r _; exact scalarEq_refl _ tid
  | succ fuel ih =>
    intro s t r hc
    rw [cancelToken_succ]
    by_cases hit : (s.getTok t)._isCancelled
    · rw [if_pos hit]; exact scalarEq_refl _ tid
    · rw [if_neg hit]
      have htne : t ≠ tid := by
        intro he; rw [he] at hit; exact hit hc
      have h1 : ScalarEq s
          (s.setTok t { s.getTok t with _isCancelled := true, _reason := r }) tid :=
        scalarEq_setTok_ne s t tid _ htne
      cases hcb : (s.getTok t)._callbacks with
      | none =>
        simp only
        exact scalarEq_trans h1
          (scalarEq_disposeTok_ne _ t tid htne)
      | some cbs =>
        simp only
        have hc1 : ((s.setTok t { s.getTok t with _isCancelled := true, _reason := r }).getTok
            tid)._isCancelled = true := by
          rw [h1.1]; exact hc
        have h2 := runCbs_mono (cancelToken env fuel) env tid
          (fun s' t' r' h' => ih s' t' r' h') cbs _ r hc1
        by_cases ht : (runCbsWith (cancelToken env fuel) env
            (s.setTok t { s.getTok t with _isCancelled := true, _reason := r }) cbs r).2
        · simp only [ht, if_true]
          exact scalarEq_trans h1 h2
        · simp only [ht, if_false, Bool.false_eq_true]
          exact scalarEq_trans (scalarEq_trans h1 h2)
            (scalarEq_disposeTok_ne _ t tid htne)

/-! ### The interpreter never changes the number of allocated tokens -/

theorem tokens_settlePromise (s : Store) (pid : Nat) (res : PromiseResult) :
    (s.settlePromise pid res).tokens = s.tokens := by
  unfold Store.settlePromise
  cases nthD none s.promises pid <;> rfl

theorem tokensLength_deleteCb (s : Store) (t : Nat) (cb : Cb) :
    (s.deleteCb t cb).tokens.length = s.tokens.length := by
  rw [deleteCb_eq]
  cases (s.getTok t)._callbacks with
  | none => rfl
  | some cbs => exact tokensLength_setTok s t _

theorem tokensLength_fold_deleteCb (cb : Cb) :
    ∀ (js : List Nat) (s : Store),
      ((js.foldl (fun acc i => acc.deleteCb i cb) s)).tokens.length = s.tokens.length := by
  intro js
  induction js with
  | nil => intro s; rfl
  | cons j js ih =>
    intro s
    rw [List.foldl_cons, ih, tokensLength_deleteCb]

theorem tokensLength_disposeTok (s : Store) (t : Nat) :
    (s.disposeTok t).tokens.length = s.tokens.length := by
  rw [disposeTok_eq]
  exact tokensLength_setTok s t _

theorem invoke_tokensLength (cancelFn : Store → Nat → Reason → Store × Bool)
    (env : Nat → Reason → Bool)
    (hf : ∀ s t r, ((cancelFn s t r).1).tokens.length = s.tokens.length) :
    ∀ (s : Store) (cb : Cb) (r : Reason),
      ((invokeCbWith cancelFn env s cb r).1).tokens.length = s.tokens.length := by
  intro s cb r
  cases cb with
  | user uid => rfl
  | allHandler cell combined inputs =>
    rw [invoke_allHandler]
    by_cases hv : s.getCell cell - 1 = 0
    · rw [if_pos hv, hf]; rfl
    · rw [if_neg hv]; rfl
  | raceHandler combined inputs =>
    rw [invoke_raceHandler, hf, tokensLength_fold_deleteCb]
  | rejectPromise pid =>
    rw [invoke_rejectPromise]
    simp only [tokens_settlePromise]

theorem runCbs_tokensLength (cancelFn : Store → Nat → Reason → Store × Bool)
    (env : Nat → Reason → Bool)
    (hf : ∀ s t r, ((cancelFn s t r).1).tokens.length = s.tokens.length) :
    ∀ (cbs : List Cb) (s : Store) (r : Reason),
      ((runCbsWith cancelFn env s cbs r).1).tokens.length = s.tokens.length := by
  intro cbs
  induction cbs with
  | nil => intro s r; rfl
  | cons cb rest ih =>
    intro s r
    rw [runCbs_cons]
    by_cases ht : (invokeCbWith cancelFn env s cb r).2
    · simp only [ht, if_true]
      exact invoke_tokensLength cancelFn env hf s cb r
    · simp only [ht, if_false, Bool.false_eq_true]
      rw [ih, invoke_tokensLength cancelFn env hf]

theorem cancel_tokensLength (env : Nat → Reason → Bool) :
    ∀ (fuel : Nat) (s : Store) (t : Nat) (r : Reason),
      ((cancelToken env fuel s t r).1).tokens.length = s.tokens.length := by
  intro fuel
  induction fuel with
  | zero => intro s t r; rfl
  | succ fuel ih =>
    intro s t r
    rw [cancelToken_succ]
    by_cases hit : (s.getTok t)._isCancelled
    · rw [if_pos hit]
    · rw [if_neg hit]
      cases hcb : (s.getTok t)._callbacks with
      | none =>
        simp only
        rw [tokensLength_disposeTok, tokensLength_setTok]
      | some cbs =>
        simp only
        by_cases ht : (runCbsWith (cancelToken env fuel) env
            (s.setTok t { s.getTok t with _isCancelled := true, _reason := r }) cbs r).2
        · simp only [ht, if_true]
          rw [runCbs_tokensLength (cancelToken env fuel) env ih, tokensLength_setTok]
        · simp only [ht, if_false, Bool.false_eq_true]
          rw [tokensLength_disposeTok,
            runCbs_tokensLength (cancelToken env fuel) env ih, tokensLength_setTok]

/-! ### Broadcasts over consumer callbacks -/

theorem events_setTok (s : Store) (t : Nat) (v : TokenState) :
    (s.setTok t v).events = s.events := rfl

theorem getTok_eventsUpdate (s : Store) (E : List (Nat × Reason)) (tid : Nat) :
    (({ s with events := E } : Store).getTok tid) = s.getTok tid := rfl

theorem runCbs_users (cancelFn : Store → Nat → Reason → Store × Bool)
    (env : Nat → Reason → Bool) (r : Reason) :
    ∀ (us : List Nat) (s : Store), (∀ p ∈ us, env p r = false) →
      runCbsWith cancelFn env s (us.map Cb.user) r =
        ({ s with events := s.events ++ us.map (fun p => (p, r)) }, false) := by
  intro us
  induction us with
  | nil =>
    intro s _
    rw [List.map_nil, runCbs_nil]
    simp
  | cons u us ih =>
    intro s hpre
    have hur : env u r = false := hpre u (List.mem_cons_self u us)
    rw [List.map_cons, runCbs_cons, invoke_user]
    simp only [hur, Bool.false_eq_true, if_false]
    rw [ih _ (fun p hp => hpre p (List.mem_cons_of_mem u hp))]
    simp [List.append_assoc]

theorem runCbs_users_then_throw (cancelFn : Store → Nat → Reason → Store × Bool)
    (env : Nat → Reason → Bool) (r : Reason) (u : Nat) (rest : List Cb) :
    ∀ (us : List Nat) (s : Store), (∀ p ∈ us, env p r = false) → env u r = true →
      runCbsWith cancelFn env s (us.map Cb.user ++ Cb.user u :: rest) r =
        ({ s with events := s.events ++ us.map (fun p => (p, r)) ++ [(u, r)] }, true) := by
  intro us
  induction us with
  | nil =>
    intro s _ hu
    rw [List.map_nil, List.nil_append, runCbs_cons, invoke_user]
    simp only [hu, if_true]
    simp
  | cons p ps ih =>
    intro s hpre hu
    have hpr : env p r = false := hpre p (List.mem_cons_self p ps)
    rw [List.map_cons, List.cons_append, runCbs_cons, invoke_user]
    simp only [hpr, Bool.false_eq_true, if_false]
    rw [ih _ (fun q hq => hpre q (List.mem_cons_of_mem p hq)) hu]
    simp [List.append_assoc]

/-! ### Claim theorems C1–C4 -/

/-- C1: for every token returned by `create()`, calling `cancel(r1)`
and then `cancel(r2)` leaves `isCancelled == true` and `reason == r1`;
the second (and every later) `cancel` call returns with the store
completely unchanged — no state change and no further listener
invocation — because `cancel` checks `_isCancelled` first. -/
theorem cancel_idempotent_first_wins (env : Nat → Reason → Bool) (fuel fuel2 : Nat) (s : Store)
    (tid : Nat) (r1 r2 : Reason)
    (hlt : tid < s.tokens.length)
    (hic : (s.getTok tid)._isCancelled = false) :
    ((cancelToken env (fuel + 1) s tid r1).1.getTok tid)._isCancelled = true ∧
    ((cancelToken env (fuel + 1) s tid r1).1.getTok tid)._reason = r1 ∧
    cancelToken env (fuel2 + 1) (cancelToken env (fuel + 1) s tid r1).1 tid r2 =
      ((cancelToken env (fuel + 1) s tid r1).1, false) := by
  have hmain : ((cancelToken env (fuel + 1) s tid r1).1.getTok tid)._isCancelled = true ∧
      ((cancelToken env (fuel + 1) s tid r1).1.getTok tid)._reason = r1 := by
    rw [cancelToken_succ, if_neg (by simp [hic])]
    have hget1 : (s.setTok tid { s.getTok tid with _isCancelled := true, _reason := r1 }).getTok
        tid = { s.getTok tid with _isCancelled := true, _reason := r1 } := by
      rw [getTok_setTok, if_pos ⟨rfl, hlt⟩]
    cases hcb : (s.getTok tid)._callbacks with
    | none =>
      simp only
      rw [disposeTok_eq, getTok_setTok,
        if_pos ⟨rfl, by rw [tokensLength_setTok]; exact hlt⟩, hget1]
      exact ⟨rfl, rfl⟩
    | some cbs =>
      simp only
      have hm := runCbs_mono (cancelToken env fuel) env tid
        (fun s' t' r' h' => cancel_mono env tid fuel s' t' r' h') cbs
        (s.setTok tid { s.getTok tid with _isCancelled := true, _reason := r1 }) r1
        (by rw [hget1])
      by_cases ht : (runCbsWith (cancelToken env fuel) env
          (s.setTok tid { s.getTok tid with _isCancelled := true, _reason := r1 }) cbs r1).2
      · simp only [ht, if_true]
        refine ⟨?_, ?_⟩
        · rw [hm.1, hget1]
        · rw [hm.2.2, hget1]
      · simp only [ht, if_false, Bool.false_eq_true]
        have hlen : tid < (runCbsWith (cancelToken env fuel) env
            (s.setTok tid { s.getTok tid with _isCancelled := true, _reason := r1 })
            cbs r1).1.tokens.length := by
          rw [runCbs_tokensLength (cancelToken env fuel) env (cancel_tokensLength env fuel),
            tokensLength_setTok]
          exact hlt
        rw [disposeTok_eq, getTok_setTok, if_pos ⟨rfl, hlen⟩]
        exact ⟨hm.1.trans (by rw [hget1]), hm.2.2.trans (by rw [hget1])⟩
  refine ⟨hmain.1, hmain.2, ?_⟩
  rw [cancelToken_succ, if_pos hmain.1]

/-- C2: `onCancelled` on a cancellable, already-cancelled token invokes
the callback exactly once, synchronously before returning, with the
stored reason (the only store change is the one new trace event), and
returns the no-op unregister function. -/
theorem onCancelled_after_cancellation_immediate (env : Nat → Reason → Bool) (fuel : Nat)
    (s : Store) (tid uid : Nat)
    (hcan : (s.getTok tid)._canBeCancelled = true)
    (hic : (s.getTok tid)._isCancelled = true) :
    onCancelled env fuel s tid (.user uid) =
      ({ s with events := s.events ++ [(uid, (s.getTok tid)._reason)] },
        env uid (s.getTok tid)._reason, Unreg.noop) ∧
    applyUnreg { s with events := s.events ++ [(uid, (s.getTok tid)._reason)] } Unreg.noop =
      { s with events := s.events ++ [(uid, (s.getTok tid)._reason)] } := by
  refine ⟨?_, rfl⟩
  rw [onCancelled_eq, if_neg (by simp [hcan]), if_pos hic, invoke_user]

/-- C3 counterexample: with two listeners registered on a fresh source
token and the first listener throwing, `cancel` does not invoke the
second listener (the trace holds only the first invocation), the
exception escapes `cancel` (thrown flag `true`), and the registry is
not cleared — refuting per-listener isolation as the claim states it.
The state transition itself does complete. -/
theorem broadcast_throw_not_isolated_cex :
    (cancelToken envThrow0 2 twoListenerStore 2 (.mk 4)).2 = true ∧
    (cancelToken envThrow0 2 twoListenerStore 2 (.mk 4)).1.events = [(0, .mk 4)] ∧
    ((cancelToken envThrow0 2 twoListenerStore 2 (.mk 4)).1.getTok 2)._isCancelled = true ∧
    ((cancelToken envThrow0 2 twoListenerStore 2 (.mk 4)).1.getTok 2)._callbacks =
      some [.user 0, .user 1] :=
  ⟨rfl, rfl, rfl, rfl⟩

/-- C3 (amended): the state transition to cancelled is guaranteed —
`_isCancelled` and `_reason` are set before the broadcast and persist —
but a listener that throws aborts the broadcast: the listeners after it
are never invoked, the exception escapes `cancel()` to its caller, and
the registry is not cleared (the final `dispose()` is skipped). -/
theorem broadcast_state_transition_guaranteed (env : Nat → Reason → Bool) (fuel : Nat)
    (s : Store) (tid : Nat) (r : Reason) (pres : List Nat) (u : Nat) (rest : List Cb)
    (hlt : tid < s.tokens.length)
    (hic : (s.getTok tid)._isCancelled = false)
    (hcbs : (s.getTok tid)._callbacks = some (pres.map Cb.user ++ Cb.user u :: rest))
    (hpre : ∀ p ∈ pres, env p r = false)
    (hu : env u r = true) :
    cancelToken env (fuel + 1) s tid r =
      ({ s.setTok tid { s.getTok tid with _isCancelled := true, _reason := r } with
           events := s.events ++ pres.map (fun p => (p, r)) ++ [(u, r)] }, true) ∧
    ((cancelToken env (fuel + 1) s tid r).1.getTok tid)._isCancelled = true ∧
    ((cancelToken env (fuel + 1) s tid r).1.getTok tid)._reason = r := by
  have heq : cancelToken env (fuel + 1) s tid r =
      ({ s.setTok tid { s.getTok tid with _isCancelled := true, _reason := r } with
           events := s.events ++ pres.map (fun p => (p, r)) ++ [(u, r)] }, true) := by
    rw [cancelToken_succ, if_neg (by simp [hic]), hcbs]
    simp only
    rw [runCbs_users_then_throw (cancelToken env fuel) env r u rest pres _ hpre hu]
    simp only [if_true]
    rw [events_setTok]
  have hx1 : ((s.setTok tid
      { s.getTok tid with _isCancelled := true, _reason := r }).getTok tid)._isCancelled =
      true := by
    rw [getTok_setTok, if_pos ⟨rfl, hlt⟩]
  have hx2 : ((s.setTok tid
      { s.getTok tid with _isCancelled := true, _reason := r }).getTok tid)._reason = r := by
    rw [getTok_setTok, if_pos ⟨rfl, hlt⟩]
  refine ⟨heq, ?_, ?_⟩
  · rw [heq]
    exact hx1
  · rw [heq]
    exact hx2

/-- C4: contrary to the claim (and to the `Source.cancel` doc comment
"Do nothing if the provided token cannot be cancelled"), `cancel` after
`dispose()` still cancels the token: `dispose` leaves `_isCancelled`
false, `cancel` checks only `_isCancelled`, so it proceeds, sets
`_isCancelled` to true and the final `dispose()` resets
`_canBeCancelled` to true. -/
theorem dispose_then_cancel_still_cancels :
    (((initStore.createTok).1.disposeTok 2).getTok 2)._canBeCancelled = false ∧
    (((initStore.createTok).1.disposeTok 2).getTok 2)._isCancelled = false ∧
    ((cancelToken envNone 2 ((initStore.createTok).1.disposeTok 2) 2
        (.mk 0)).1.getTok 2)._isCancelled = true ∧
    ((cancelToken envNone 2 ((initStore.createTok).1.disposeTok 2) 2
        (.mk 0)).1.getTok 2)._canBeCancelled = true :=
  ⟨rfl, rfl, rfl, rfl⟩

/-- C1 witness: a freshly created source token, cancelled with reason
`mk 1` and then with `mk 2`. -/
theorem cancel_idempotent_first_wins_witness :
    ((cancelToken envNone 2 (initStore.createTok).1 2 (.mk 1)).1.getTok 2)._isCancelled = true ∧
    ((cancelToken envNone 2 (initStore.createTok).1 2 (.mk 1)).1.getTok 2)._reason = .mk 1 ∧
    cancelToken envNone 2 (cancelToken envNone 2 (initStore.createTok).1 2 (.mk 1)).1 2
        (.mk 2) =
      ((cancelToken envNone 2 (initStore.createTok).1 2 (.mk 1)).1, false) :=
  cancel_idempotent_first_wins envNone 1 1 (initStore.createTok).1 2 (.mk 1) (.mk 2)
    (by decide) (by decide)

/-- C2 witness: a created source cancelled with reason `mk 5`, then a
listener registered afterwards. -/
theorem onCancelled_after_cancellation_immediate_witness :
    (let s := (cancelToken envNone 2 (initStore.createTok).1 2 (.mk 5)).1
     onCancelled envNone 2 s 2 (.user 7) =
       ({ s with events := s.events ++ [(7, (s.getTok 2)._reason)] },
         envNone 7 (s.getTok 2)._reason, Unreg.noop) ∧
     applyUnreg { s with events := s.events ++ [(7, (s.getTok 2)._reason)] } Unreg.noop =
       { s with events := s.events ++ [(7, (s.getTok 2)._reason)] }) :=
  onCancelled_after_cancellation_immediate envNone 2
    (cancelToken envNone 2 (initStore.createTok).1 2 (.mk 5)).1 2 7 (by decide) (by decide)

/-- C3 witness for the amended statement: the first listener throws,
no earlier listeners exist, one later listener is registered. -/
theorem broadcast_state_transition_guaranteed_witness :
    (let s := twoListenerStore
     cancelToken envThrow0 2 s 2 (.mk 4) =
       ({ s.setTok 2 { s.getTok 2 with _isCancelled := true, _reason := .mk 4 } with
            events := s.events ++ ([] : List Nat).map (fun p => (p, Reason.mk 4)) ++
              [(0, .mk 4)] }, true) ∧
     ((cancelToken envThrow0 2 s 2 (.mk 4)).1.getTok 2)._isCancelled = true ∧
     ((cancelToken envThrow0 2 s 2 (.mk 4)).1.getTok 2)._reason = .mk 4) :=
  broadcast_state_transition_guaranteed envThrow0 1 twoListenerStore 2 (.mk 4) [] 0
    [.user 1] (by decide) (by decide) (by decide) (by decide) (by decide)

/-! ### Tokens that no registered handler can cancel stay unchanged -/

theorem nthD_ge (d : α) : ∀ (l : List α) (i : Nat), l.length ≤ i → nthD d l i = d := by
  intro l
  induction l with
  | nil => intro i _; rfl
  | cons a l ih =>
    intro i h
    cases i with
    | zero => simp at h
    | succ i => exact (nthD_succ d a l i).trans (ih i (by simpa using Nat.le_of_succ_le_succ h))

theorem noTarget_mem {s : Store} {tid : Nat} (hn : noTarget s tid = true) :
    ∀ {ts : TokenState}, ts ∈ s.tokens → ∀ {cbs : List Cb}, ts._callbacks = some cbs →
      ∀ {cb : Cb}, cb ∈ cbs → cbTarget cb ≠ some tid := by
  intro ts hts cbs hcbs cb hcb
  unfold noTarget at hn
  rw [List.all_eq_true] at hn
  have := hn ts hts
  rw [hcbs] at this
  rw [List.all_eq_true] at this
  have hb := this cb hcb
  simpa using hb

theorem noTarget_getTok {s : Store} {tid : Nat} (hn : noTarget s tid = true) (t : Nat)
    {cbs : List Cb} (hcbs : (s.getTok t)._callbacks = some cbs) :
    ∀ {cb : Cb}, cb ∈ cbs → cbTarget cb ≠ some tid := by
  intro cb hcb
  by_cases hlt : t < s.tokens.length
  · exact noTarget_mem hn (nthD_mem freshTok s.tokens t hlt) hcbs hcb
  · have : s.getTok t = freshTok := nthD_ge freshTok s.tokens t (Nat.le_of_not_lt hlt)
    rw [this] at hcbs
    have : cbs = [] := by
      have hfr : (freshTok)._callbacks = some [] := rfl
      rw [hfr] at hcbs
      exact (Option.some.inj hcbs).symm
    rw [this] at hcb
    cases hcb

theorem noTarget_setTok {s : Store} {tid : Nat} (hn : noTarget s tid = true) (t : Nat)
    (v : TokenState)
    (hv : ∀ {cbs : List Cb}, v._callbacks = some cbs → ∀ {cb : Cb}, cb ∈ cbs →
      cbTarget cb ≠ some tid) :
    noTarget (s.setTok t v) tid = true := by
  unfold noTarget at hn ⊢
  rw [List.all_eq_true] at hn ⊢
  intro ts hts
  rcases List.mem_or_eq_of_mem_set hts with hmem | rfl
  · exact hn ts hmem
  · cases hcb : ts._callbacks with
    | none => simp
    | some cbs =>
      rw [List.all_eq_true]
      intro cb hcb2
      simpa using hv hcb hcb2

theorem noTarget_deleteCb {s : Store} {tid : Nat} (hn : noTarget s tid = true) (t : Nat)
    (cb : Cb) : noTarget (s.deleteCb t cb) tid = true := by
  rw [deleteCb_eq]
  cases hcb : (s.getTok t)._callbacks with
  | none => exact hn
  | some cbs =>
    refine noTarget_setTok hn t _ ?_
    intro cbs2 hcbs2 cb2 hcb2
    have : cbs2 = cbs.filter (fun c => c != cb) := (Option.some.inj hcbs2).symm
    rw [this] at hcb2
    exact noTarget_getTok hn t hcb (List.mem_of_mem_filter hcb2)

theorem noTarget_fold_deleteCb {tid : Nat} (cb : Cb) :
    ∀ (js : List Nat) (s : Store), noTarget s tid = true →
      noTarget (js.foldl (fun acc i => acc.deleteCb i cb) s) tid = true := by
  intro js
  induction js with
  | nil => intro s hn; exact hn
  | cons j js ih =>
    intro s hn
    exact ih (s.deleteCb j cb) (noTarget_deleteCb hn j cb)

theorem noTarget_disposeTok {s : Store} {tid : Nat} (hn : noTarget s tid = true) (t : Nat) :
    noTarget (s.disposeTok t) tid = true := by
  rw [disposeTok_eq]
  refine noTarget_setTok hn t _ ?_
  intro cbs hcbs
  cases hcbs

theorem noTarget_setCell (s : Store) (tid c : Nat) (v : Int) :
    noTarget (s.setCell c v) tid = noTarget s tid := rfl

theorem noTarget_settlePromise (s : Store) (tid pid : Nat) (res : PromiseResult) :
    noTarget (s.settlePromise pid res) tid = noTarget s tid := by
  unfold noTarget
  rw [tokens_settlePromise]

theorem invoke_noTarget (cancelFn : Store → Nat → Reason → Store × Bool)
    (env : Nat → Reason → Bool) (tid : Nat)
    (hf : ∀ s t r, noTarget s tid = true → t ≠ tid →
      noTarget ((cancelFn s t r).1) tid = true ∧ ScalarEq s ((cancelFn s t r).1) tid) :
    ∀ (s : Store) (cb : Cb) (r : Reason), noTarget s tid = true → cbTarget cb ≠ some tid →
      noTarget ((invokeCbWith cancelFn env s cb r).1) tid = true ∧
      ScalarEq s ((invokeCbWith cancelFn env s cb r).1) tid := by
  intro s cb r hn htg
  cases cb with
  | user uid => exact ⟨hn, scalarEq_refl _ tid⟩
  | allHandler cell combined inputs =>
    have hcne : combined ≠ tid := by
      intro he; exact htg (by rw [he]; rfl)
    rw [invoke_allHandler]
    by_cases hv : s.getCell cell - 1 = 0
    · rw [if_pos hv]
      have hn1 : noTarget (s.setCell cell (s.getCell cell - 1)) tid = true := by
        rw [noTarget_setCell]; exact hn
      have h2 := hf (s.setCell cell (s.getCell cell - 1)) combined
        (Reason.list (inputs.map
          (fun i => ((s.setCell cell (s.getCell cell - 1)).getTok i)._reason))) hn1 hcne
      refine ⟨h2.1, scalarEq_trans ?_ h2.2⟩
      exact ⟨rfl, rfl, rfl⟩
    · rw [if_neg hv]
      exact ⟨by rw [noTarget_setCell]; exact hn, ⟨rfl, rfl, rfl⟩⟩
  | raceHandler combined inputs =>
    have hcne : combined ≠ tid := by
      intro he; exact htg (by rw [he]; rfl)
    rw [invoke_raceHandler]
    have hn1 := noTarget_fold_deleteCb (Cb.raceHandler combined inputs) inputs s hn
    have hs1 := scalarEq_fold_deleteCb (Cb.raceHandler combined inputs) tid inputs s
    have h2 := hf _ combined r hn1 hcne
    exact ⟨h2.1, scalarEq_trans hs1 h2.2⟩
  | rejectPromise pid =>
    rw [invoke_rejectPromise]
    constructor
    · rw [noTarget_settlePromise]; exact hn
    · unfold ScalarEq
      rw [getTok_settlePromise]
      exact ⟨rfl, rfl, rfl⟩

theorem runCbs_noTarget (cancelFn : Store → Nat → Reason → Store × Bool)
    (env : Nat → Reason → Bool) (tid : Nat)
    (hf : ∀ s t r, noTarget s tid = true → t ≠ tid →
      noTarget ((cancelFn s t r).1) tid = true ∧ ScalarEq s ((cancelFn s t r).1) tid) :
    ∀ (cbs : List Cb) (s : Store) (r : Reason), noTarget s tid = true →
      (∀ cb ∈ cbs, cbTarget cb ≠ some tid) →
      noTarget ((runCbsWith cancelFn env s cbs r).1) tid = true ∧
      ScalarEq s ((runCbsWith cancelFn env s cbs r).1) tid := by
  intro cbs
  induction cbs with
  | nil => intro s r hn _; exact ⟨hn, scalarEq_refl _ tid⟩
  | cons cb rest ih =>
    intro s r hn hall
    rw [runCbs_cons]
    have h1 := invoke_noTarget cancelFn env tid hf s cb r hn
      (hall cb (List.mem_cons_self cb rest))
    by_cases ht : (invokeCbWith cancelFn env s cb r).2
    · simp only [ht, if_true]
      exact h1
    · simp only [ht, if_false, Bool.false_eq_true]
      have h2 := ih ((invokeCbWith cancelFn env s cb r).1) r h1.1
        (fun c hc => hall c (List.mem_cons_of_mem cb hc))
      exact ⟨h2.1, scalarEq_trans h1.2 h2.2⟩

theorem cancel_noTarget (env : Nat → Reason → Bool) (tid : Nat) :
    ∀ (fuel : Nat) (s : Store) (t : Nat) (r : Reason), noTarget s tid = true → t ≠ tid →
      noTarget ((cancelToken env fuel s t r).1) tid = true ∧
      ScalarEq s ((cancelToken env fuel s t r).1) tid := by
  intro fuel
  induction fuel with
  | zero => intro s t r hn _; exact ⟨hn, scalarEq_refl _ tid⟩
  | succ fuel ih =>
    intro s t r hn hne
    rw [cancelToken_succ]
    by_cases hit : (s.getTok t)._isCancelled
    · rw [if_pos hit]; exact ⟨hn, scalarEq_refl _ tid⟩
    · rw [if_neg hit]
      have hn1 : noTarget
          (s.setTok t { s.getTok t with _isCancelled := true, _reason := r }) tid = true := by
        refine noTarget_setTok hn t _ ?_
        intro cbs hcbs cb hcb
        exact noTarget_getTok hn t hcbs hcb
      have hs1 : ScalarEq s
          (s.setTok t { s.getTok t with _isCancelled := true, _reason := r }) tid :=
        scalarEq_setTok_ne s t tid _ hne
      cases hcb : (s.getTok t)._callbacks with
      | none =>
        simp only
        exact ⟨noTarget_disposeTok hn1 t, scalarEq_trans hs1 (scalarEq_disposeTok_ne _ t tid hne)⟩
      | some cbs =>
        simp only
        have hall : ∀ cb ∈ cbs, cbTarget cb ≠ some tid := fun cb hc =>
          noTarget_getTok hn t hcb hc
        have h2 := runCbs_noTarget (cancelToken env fuel) env tid
          (fun s' t' r' hn' hne' => ih s' t' r' hn' hne') cbs _ r hn1 hall
        by_cases ht : (runCbsWith (cancelToken env fuel) env
            (s.setTok t { s.getTok t with _isCancelled := true, _reason := r }) cbs r).2
        · simp only [ht, if_true]
          exact ⟨h2.1, scalarEq_trans hs1 h2.2⟩
        · simp only [ht, if_false, Bool.false_eq_true]
          exact ⟨noTarget_disposeTok h2.1 t,
            scalarEq_trans (scalarEq_trans hs1 h2.2) (scalarEq_disposeTok_ne _ t tid hne)⟩

/-! ### Claim theorems C5 and C10 -/

/-- C5: if any input has `canBeCancelled == false`, `all` returns the
`CONTINUE` sentinel with the store untouched (no listener registered on
any input, no new source built); the sentinel has
`canBeCancelled == false` and `isCancelled == false`, registration on
it is a permanent no-op that never invokes the callback, and no
`cancel` run on any other token can ever cancel it. -/
theorem all_uncancellable_input_returns_sentinel (env : Nat → Reason → Bool) (fuel : Nat)
    (s : Store) (inputs : List Nat)
    (hsome : inputs.any (fun i => !(s.getTok i)._canBeCancelled) = true)
    (hcont : s.getTok continueId = continueTokInit)
    (hnt : noTarget s continueId = true) :
    allModel env fuel s inputs = (s, continueId) ∧
    (s.getTok continueId)._canBeCancelled = false ∧
    (s.getTok continueId)._isCancelled = false ∧
    (∀ (cb : Cb), onCancelled env fuel s continueId cb = (s, false, .noop)) ∧
    (∀ (fuel2 t : Nat) (r : Reason), t ≠ continueId →
      ((cancelToken env fuel2 s t r).1.getTok continueId)._isCancelled = false) := by
  refine ⟨?_, ?_, ?_, ?_, ?_⟩
  · unfold allModel
    rw [if_pos hsome]
  · rw [hcont]; rfl
  · rw [hcont]; rfl
  · intro cb
    rw [onCancelled_eq, if_pos (by rw [hcont]; rfl)]
  · intro fuel2 t r ht
    have h := (cancel_noTarget env continueId fuel2 s t r hnt ht).2.1
    rw [h, hcont]
    rfl

/-- C5 witness: `all` applied with the `CONTINUE` sentinel itself among
the inputs, in the initial store. -/
theorem all_uncancellable_input_returns_sentinel_witness :
    allModel envNone 2 initStore [1] = (initStore, continueId) ∧
    (initStore.getTok continueId)._canBeCancelled = false ∧
    (initStore.getTok continueId)._isCancelled = false ∧
    (∀ (cb : Cb), onCancelled envNone 2 initStore continueId cb = (initStore, false, .noop)) ∧
    (∀ (fuel2 t : Nat) (r : Reason), t ≠ continueId →
      ((cancelToken envNone fuel2 initStore t r).1.getTok continueId)._isCancelled = false) :=
  all_uncancellable_input_returns_sentinel envNone 2 initStore [1] (by decide) rfl
    (by decide)

/-- C10: `all` of the empty token list builds a fresh source whose
countdown starts at `0`, registers the firing callback nowhere (the
store gains exactly the fresh token and the `0` cell), and returns its
token: cancellable, not cancelled, distinct from both sentinels, and —
since no registered handler anywhere targets it and its private
`cancel` is never exposed — no `cancel` run on any other token can
ever cancel it. -/
theorem all_empty_list_fresh_uncancellable (env : Nat → Reason → Bool) (fuel : Nat) (s : Store)
    (hlen : 2 ≤ s.tokens.length)
    (hnt : noTarget s s.tokens.length = true) :
    allModel env fuel s [] =
      ({ s with tokens := s.tokens ++ [freshTok], cells := s.cells ++ [0] },
        s.tokens.length) ∧
    (({ s with tokens := s.tokens ++ [freshTok], cells := s.cells ++ [0] } : Store).getTok
      s.tokens.length) = freshTok ∧
    freshTok._isCancelled = false ∧ freshTok._canBeCancelled = true ∧
    s.tokens.length ≠ continueId ∧ s.tokens.length ≠ cancelledId ∧
    (∀ (fuel2 t : Nat) (r : Reason), t ≠ s.tokens.length →
      ((cancelToken env fuel2
          { s with tokens := s.tokens ++ [freshTok], cells := s.cells ++ [0] } t
          r).1.getTok s.tokens.length)._isCancelled = false) := by
  have hget :
      (({ s with tokens := s.tokens ++ [freshTok], cells := s.cells ++ [0] } : Store).getTok
        s.tokens.length) = freshTok := by
    show nthD freshTok (s.tokens ++ [freshTok]) s.tokens.length = freshTok
    have := nthD_append_right freshTok s.tokens [freshTok] 0
    simpa using this
  refine ⟨rfl, hget, rfl, rfl, ?_, ?_, ?_⟩
  · unfold continueId; omega
  · unfold cancelledId; omega
  · intro fuel2 t r ht
    have hnt2 : noTarget
        ({ s with tokens := s.tokens ++ [freshTok], cells := s.cells ++ [0] } : Store)
        s.tokens.length = true := by
      unfold noTarget at hnt ⊢
      rw [List.all_eq_true] at hnt ⊢
      intro ts hts
      rcases List.mem_append.1 hts with hmem | hmem
      · exact hnt ts hmem
      · rcases List.mem_singleton.1 hmem with rfl
        rfl
    have h := (cancel_noTarget env s.tokens.length fuel2 _ t r hnt2 ht).2.1
    rw [h, hget]
    rfl

/-- C10 witness: `all()` of no tokens in the initial store. -/
theorem all_empty_list_fresh_uncancellable_witness :
    allModel envNone 2 initStore [] =
      ({ initStore with
          tokens := initStore.tokens ++ [freshTok], cells := initStore.cells ++ [0] },
        initStore.tokens.length) ∧
    (({ initStore with
        tokens := initStore.tokens ++ [freshTok],
        cells := initStore.cells ++ [0] } : Store).getTok initStore.tokens.length) =
      freshTok ∧
    freshTok._isCancelled = false ∧ freshTok._canBeCancelled = true ∧
    initStore.tokens.length ≠ continueId ∧ initStore.tokens.length ≠ cancelledId ∧
    (∀ (fuel2 t : Nat) (r : Reason), t ≠ initStore.tokens.length →
      ((cancelToken envNone fuel2
          { initStore with
            tokens := initStore.tokens ++ [freshTok], cells := initStore.cells ++ [0] } t
          r).1.getTok initStore.tokens.length)._isCancelled = false) :=
  all_empty_list_fresh_uncancellable envNone 2 initStore (by decide) (by decide)

/-- The idempotent timer disarm always yields the disarmed source. -/
theorem disposeTimer_eq : ∀ (ts : TimeoutSource),
    disposeTimer ts = { token := ts.token, timer := false } := by
  intro ts
  cases ts with
  | mk tok tmr => cases tmr <;> rfl

/-! ### Claim theorem C9 -/

/-- C9: `timeout` arms a timer; expiry of an armed timer delegates to
the underlying `cancel` with the timed-out sentinel reason and disarms;
a disarmed timer never fires; the returned `cancel` and `dispose` both
disarm first (idempotently) and then delegate to the underlying
source's `cancel`/`dispose`; concretely, firing the armed source built
in the initial store cancels its token with the sentinel, while calling
the returned `cancel` first disarms the timer, cancels with the chosen
reason, and a subsequent expiry changes nothing, so the chosen reason
survives. -/
theorem timeout_disarm_and_fire_semantics (env : Nat → Reason → Bool) (fuel : Nat) :
    (∀ (s : Store), (timeoutModel s).2.timer = true) ∧
    (∀ (s : Store) (ts : TimeoutSource), ts.timer = true →
      timeoutFire env fuel s ts =
        ((cancelToken env fuel s ts.token .timedOutSentinel).1,
          { token := ts.token, timer := false },
          (cancelToken env fuel s ts.token .timedOutSentinel).2)) ∧
    (∀ (s : Store) (ts : TimeoutSource), ts.timer = false →
      timeoutFire env fuel s ts = (s, ts, false)) ∧
    (∀ (s : Store) (ts : TimeoutSource) (r : Reason),
      timeoutCancel env fuel s ts r =
        ((cancelToken env fuel s ts.token r).1, { token := ts.token, timer := false },
          (cancelToken env fuel s ts.token r).2)) ∧
    (∀ (s : Store) (ts : TimeoutSource),
      timeoutDispose s ts = (s.disposeTok ts.token, { token := ts.token, timer := false })) ∧
    (∀ ts : TimeoutSource, disposeTimer (disposeTimer ts) = disposeTimer ts) ∧
    (((timeoutFire env 2 (timeoutModel initStore).1
        (timeoutModel initStore).2).1.getTok 2)._isCancelled = true ∧
     ((timeoutFire env 2 (timeoutModel initStore).1
        (timeoutModel initStore).2).1.getTok 2)._reason = .timedOutSentinel) ∧
    (∀ (r : Reason),
      (timeoutCancel env 2 (timeoutModel initStore).1
        (timeoutModel initStore).2 r).2.1.timer = false ∧
      timeoutFire env 2
          (timeoutCancel env 2 (timeoutModel initStore).1 (timeoutModel initStore).2 r).1
          (timeoutCancel env 2 (timeoutModel initStore).1 (timeoutModel initStore).2 r).2.1 =
        ((timeoutCancel env 2 (timeoutModel initStore).1 (timeoutModel initStore).2 r).1,
          (timeoutCancel env 2 (timeoutModel initStore).1 (timeoutModel initStore).2 r).2.1,
          false) ∧
      (((timeoutCancel env 2 (timeoutModel initStore).1
          (timeoutModel initStore).2 r).1.getTok 2)._isCancelled = true ∧
       ((timeoutCancel env 2 (timeoutModel initStore).1
          (timeoutModel initStore).2 r).1.getTok 2)._reason = r)) := by
  refine ⟨fun s => rfl, ?_, ?_, ?_, ?_, ?_, ⟨rfl, rfl⟩, fun r => ⟨rfl, rfl, rfl, rfl⟩⟩
  · intro s ts ht
    unfold timeoutFire
    rw [if_pos ht]
  · intro s ts ht
    unfold timeoutFire
    rw [if_neg (by simp [ht])]
  · intro s ts r
    unfold timeoutCancel
    rw [disposeTimer_eq]
  · intro s ts
    unfold timeoutDispose
    rw [disposeTimer_eq]
  · intro ts
    cases ts with
    | mk tok tmr => cases tmr <;> rfl

/-- C9 witness: the armed/disarmed hypotheses discharged on the source
built by `timeout` in the initial store. -/
theorem timeout_disarm_and_fire_semantics_witness :
    timeoutFire envNone 2 (timeoutModel initStore).1 (timeoutModel initStore).2 =
      ((cancelToken envNone 2 (timeoutModel initStore).1
          (timeoutModel initStore).2.token .timedOutSentinel).1,
        { token := (timeoutModel initStore).2.token, timer := false },
        (cancelToken envNone 2 (timeoutModel initStore).1
          (timeoutModel initStore).2.token .timedOutSentinel).2) ∧
    timeoutFire envNone 2 (timeoutModel initStore).1
        { token := (timeoutModel initStore).2.token, timer := false } =
      ((timeoutModel initStore).1,
        { token := (timeoutModel initStore).2.token, timer := false }, false) :=
  ⟨(timeout_disarm_and_fire_semantics envNone 2).2.1 (timeoutModel initStore).1
      (timeoutModel initStore).2 rfl,
    (timeout_disarm_and_fire_semantics envNone 2).2.2.1 (timeoutModel initStore).1
      { token := (timeoutModel initStore).2.token, timer := false } rfl⟩

/-! ### racePromise machinery -/

theorem getTok_promisesUpdate (s : Store) (Ps : List (Option PromiseResult)) (tid : Nat) :
    (({ s with promises := Ps } : Store)).getTok tid = s.getTok tid := rfl

theorem racePromise_registration (env : Nat → Reason → Bool) (fuel : Nat) (s : Store)
    (tid : Nat)
    (hcan : (s.getTok tid)._canBeCancelled = true)
    (hic : (s.getTok tid)._isCancelled = false)
    (hcbs : (s.getTok tid)._callbacks = some []) :
    racePromiseModel env fuel s tid =
      (({ s with promises := s.promises ++ [none] } : Store).setTok tid
        { s.getTok tid with _callbacks := some [Cb.rejectPromise s.promises.length] },
        some s.promises.length) := by
  unfold racePromiseModel
  rw [if_neg (by simp [hcan])]
  dsimp only
  rw [onCancelled_eq, getTok_promisesUpdate]
  rw [if_neg (by simp [hcan]), if_neg (by simp [hic]), hcbs]
  simp only
  rw [show addCb [] (Cb.rejectPromise s.promises.length) =
    [Cb.rejectPromise s.promises.length] from rfl]

theorem promises_deleteCb (s : Store) (t : Nat) (cb : Cb) :
    (s.deleteCb t cb).promises = s.promises := by
  rw [deleteCb_eq]
  cases (s.getTok t)._callbacks with
  | none => rfl
  | some cbs => rfl

theorem getPromise_deleteCb (s : Store) (t : Nat) (cb : Cb) (pid : Nat) :
    (s.deleteCb t cb).getPromise pid = s.getPromise pid := by
  unfold Store.getPromise
  rw [promises_deleteCb]

theorem settlePromise_pending {s : Store} {pid : Nat} (h : s.getPromise pid = none)
    (res : PromiseResult) :
    s.settlePromise pid res = { s with promises := s.promises.set pid (some res) } := by
  unfold Store.settlePromise
  rw [show nthD none s.promises pid = none from h]

theorem settlePromise_settled {s : Store} {pid : Nat} {res0 : PromiseResult}
    (h : s.getPromise pid = some res0) (res : PromiseResult) :
    s.settlePromise pid res = s := by
  unfold Store.settlePromise
  rw [show nthD none s.promises pid = some res0 from h]

theorem racePromise_cancel_first (env : Nat → Reason → Bool) (fuel : Nat) (s : Store) (tid : Nat)
    (r : Reason)
    (hlt : tid < s.tokens.length)
    (hic : (s.getTok tid)._isCancelled = false) :
    ((cancelToken env (fuel + 1)
      (({ s with promises := s.promises ++ [none] } : Store).setTok tid
        { s.getTok tid with _callbacks := some [Cb.rejectPromise s.promises.length] })
      tid r).1).getPromise s.promises.length = some (.cancelledErr r) := by
  have hget2 : (({ s with promises := s.promises ++ [none] } : Store).setTok tid
      { s.getTok tid with _callbacks := some [Cb.rejectPromise s.promises.length] }).getTok
      tid = { s.getTok tid with _callbacks := some [Cb.rejectPromise s.promises.length] } := by
    rw [getTok_setTok]
    exact if_pos ⟨rfl, hlt⟩
  rw [cancelToken_succ, hget2]
  rw [if_neg (by simp [hic])]
  rw [show ({ s.getTok tid with
    _callbacks := some [Cb.rejectPromise s.promises.length] } : TokenState)._callbacks =
    some [Cb.rejectPromise s.promises.length] from rfl]
  dsimp only
  rw [runCbs_cons, invoke_rejectPromise]
  dsimp only
  simp only [Store.settlePromise, Store.getPromise, Store.setTok]
  rw [show nthD (none : Option PromiseResult) (s.promises ++ [none]) s.promises.length =
    none from by simpa using nthD_append_right none s.promises [none] 0]
  simp only [Bool.false_eq_true, if_false]
  rw [runCbs_nil]
  dsimp only
  simp only [Bool.false_eq_true, if_false]
  rw [show ∀ (s' : Store) (t : Nat), (s'.disposeTok t).promises = s'.promises from
    fun s' t => rfl]
  dsimp only
  have hsetp : (s.promises ++ [none]).set s.promises.length
      (some (PromiseResult.cancelledErr r)) = s.promises ++ [some (.cancelledErr r)] := by
    have h0 := set_append_right s.promises [none] 0 (some (PromiseResult.cancelledErr r))
    rw [Nat.add_zero] at h0
    exact h0
  rw [hsetp]
  have := nthD_append_right (none : Option PromiseResult) s.promises
    [some (PromiseResult.cancelledErr r)] 0
  simpa using this

theorem getPromise_disposeTok (s : Store) (t : Nat) (pid : Nat) :
    (s.disposeTok t).getPromise pid = s.getPromise pid := rfl

theorem racePromise_settle_first (env : Nat → Reason → Bool) (fuel : Nat) (s : Store) (tid : Nat)
    (r : Reason) (res : PromiseResult)
    (hlt : tid < s.tokens.length)
    (hic : (s.getTok tid)._isCancelled = false) :
    (opSettle (({ s with promises := s.promises ++ [none] } : Store).setTok tid
        { s.getTok tid with _callbacks := some [Cb.rejectPromise s.promises.length] })
        s.promises.length tid res).getPromise s.promises.length = some res ∧
    ((cancelToken env (fuel + 1)
      (opSettle (({ s with promises := s.promises ++ [none] } : Store).setTok tid
        { s.getTok tid with _callbacks := some [Cb.rejectPromise s.promises.length] })
        s.promises.length tid res)
      tid r).1).getPromise s.promises.length = some res := by
  have hpend : ((({ s with promises := s.promises ++ [none] } : Store).setTok tid
      { s.getTok tid with
        _callbacks := some [Cb.rejectPromise s.promises.length] })).getPromise
      s.promises.length = none := by
    show nthD none (s.promises ++ [none]) s.promises.length = none
    simpa using nthD_append_right (none : Option PromiseResult) s.promises [none] 0
  have hsetp : (s.promises ++ [none]).set s.promises.length (some res) =
      s.promises ++ [some res] := by
    have h0 := set_append_right s.promises [none] 0 (some res)
    rw [Nat.add_zero] at h0
    exact h0
  have hgetp : ∀ (s' : Store), s'.promises = s.promises ++ [some res] →
      s'.getPromise s.promises.length = some res := by
    intro s' hp
    unfold Store.getPromise
    rw [hp]
    simpa using nthD_append_right (none : Option PromiseResult) s.promises [some res] 0
  have hgX : ∀ (Ps : List (Option PromiseResult)),
      (Store.mk
        ((({ s with promises := s.promises ++ [none] } : Store).setTok tid
          { s.getTok tid with
            _callbacks := some [Cb.rejectPromise s.promises.length] })).tokens
        ((({ s with promises := s.promises ++ [none] } : Store).setTok tid
          { s.getTok tid with
            _callbacks := some [Cb.rejectPromise s.promises.length] })).cells
        Ps
        ((({ s with promises := s.promises ++ [none] } : Store).setTok tid
          { s.getTok tid with
            _callbacks := some [Cb.rejectPromise s.promises.length] })).events).getTok tid =
      { s.getTok tid with _callbacks := some [Cb.rejectPromise s.promises.length] } := by
    intro Ps
    show ((({ s with promises := s.promises ++ [none] } : Store).setTok tid
      { s.getTok tid with
        _callbacks := some [Cb.rejectPromise s.promises.length] })).getTok tid = _
    rw [getTok_setTok]
    exact if_pos ⟨rfl, hlt⟩
  have hfil : ([Cb.rejectPromise s.promises.length].filter
      (fun c => c != Cb.rejectPromise s.promises.length)) = [] := by
    simp
  constructor
  · unfold opSettle
    rw [getPromise_deleteCb, settlePromise_pending hpend res]
    exact hgetp _ hsetp
  · unfold opSettle
    rw [settlePromise_pending hpend res, deleteCb_eq]
    rw [hgX]
    rw [show ({ s.getTok tid with
      _callbacks := some [Cb.rejectPromise s.promises.length] } : TokenState)._callbacks =
      some [Cb.rejectPromise s.promises.length] from rfl]
    dsimp only
    rw [hfil]
    rw [cancelToken_succ, getTok_setTok]
    rw [if_pos (⟨rfl, by rw [tokensLength_setTok]; exact hlt⟩ : _ ∧ _)]
    rw [if_neg (by simp [hic])]
    rw [show ∀ (t : TokenState), ({ t with _callbacks := some ([] : List Cb) } :
      TokenState)._callbacks = some ([] : List Cb) from fun t => rfl]
    dsimp only
    rw [runCbs_nil]
    dsimp only
    simp only [Bool.false_eq_true, if_false]
    rw [getPromise_disposeTok]
    exact hgetp _ hsetp

/-! ### Claim theorem C8 -/

/-- C8: `racePromise` on a never-cancellable token returns the
operation itself unchanged (no wrapper promise is allocated); on a
cancellable pending token it allocates a wrapper and registers the
rejection callback; cancelling before the operation settles makes the
wrapper fail with `CancellationError(reason)`, and the operation's own
late settlement does not change that; settling first makes the wrapper
adopt the operation's outcome, and a later cancellation does not change
it. -/
theorem racePromise_identity_and_settlement (env : Nat → Reason → Bool) (fuel : Nat)
    (s : Store) (tid : Nat) (r : Reason) (res : PromiseResult)
    (hlt : tid < s.tokens.length)
    (hcan : (s.getTok tid)._canBeCancelled = true)
    (hic : (s.getTok tid)._isCancelled = false)
    (hcbs : (s.getTok tid)._callbacks = some []) :
    (∀ (s' : Store) (t' : Nat), (s'.getTok t')._canBeCancelled = false →
      racePromiseModel env fuel s' t' = (s', none)) ∧
    racePromiseModel env fuel s tid =
      (({ s with promises := s.promises ++ [none] } : Store).setTok tid
        { s.getTok tid with _callbacks := some [Cb.rejectPromise s.promises.length] },
        some s.promises.length) ∧
    (((cancelToken env (fuel + 1)
        (({ s with promises := s.promises ++ [none] } : Store).setTok tid
          { s.getTok tid with _callbacks := some [Cb.rejectPromise s.promises.length] })
        tid r).1).getPromise s.promises.length = some (.cancelledErr r) ∧
      (opSettle ((cancelToken env (fuel + 1)
          (({ s with promises := s.promises ++ [none] } : Store).setTok tid
            { s.getTok tid with _callbacks := some [Cb.rejectPromise s.promises.length] })
          tid r).1) s.promises.length tid res).getPromise s.promises.length =
        some (.cancelledErr r)) ∧
    ((opSettle (({ s with promises := s.promises ++ [none] } : Store).setTok tid
        { s.getTok tid with _callbacks := some [Cb.rejectPromise s.promises.length] })
        s.promises.length tid res).getPromise s.promises.length = some res ∧
      ((cancelToken env (fuel + 1)
        (opSettle (({ s with promises := s.promises ++ [none] } : Store).setTok tid
          { s.getTok tid with _callbacks := some [Cb.rejectPromise s.promises.length] })
          s.promises.length tid res)
        tid r).1).getPromise s.promises.length = some res) := by
  have hcf := racePromise_cancel_first env fuel s tid r hlt hic
  refine ⟨?_, racePromise_registration env fuel s tid hcan hic hcbs, ⟨hcf, ?_⟩,
    racePromise_settle_first env fuel s tid r res hlt hic⟩
  · intro s' t' h
    unfold racePromiseModel
    rw [if_pos (by simp [h])]
  · unfold opSettle
    rw [getPromise_deleteCb, settlePromise_settled hcf res]
    exact hcf

/-- C8 witness: a fresh source token in the initial store, reason
`mk 3`, operation outcome `value 9`. -/
theorem racePromise_identity_and_settlement_witness :
    (∀ (s' : Store) (t' : Nat), (s'.getTok t')._canBeCancelled = false →
      racePromiseModel envNone 2 s' t' = (s', none)) ∧
    racePromiseModel envNone 2 (initStore.createTok).1 2 =
      (({ (initStore.createTok).1 with
          promises := (initStore.createTok).1.promises ++ [none] } : Store).setTok 2
        { (initStore.createTok).1.getTok 2 with
          _callbacks := some [Cb.rejectPromise (initStore.createTok).1.promises.length] },
        some (initStore.createTok).1.promises.length) ∧
    (((cancelToken envNone 3
        (({ (initStore.createTok).1 with
            promises := (initStore.createTok).1.promises ++ [none] } : Store).setTok 2
          { (initStore.createTok).1.getTok 2 with
            _callbacks := some [Cb.rejectPromise (initStore.createTok).1.promises.length] })
        2 (.mk 3)).1).getPromise (initStore.createTok).1.promises.length =
      some (.cancelledErr (.mk 3)) ∧
      (opSettle ((cancelToken envNone 3
          (({ (initStore.createTok).1 with
              promises := (initStore.createTok).1.promises ++ [none] } : Store).setTok 2
            { (initStore.createTok).1.getTok 2 with
              _callbacks :=
                some [Cb.rejectPromise (initStore.createTok).1.promises.length] })
          2 (.mk 3)).1) (initStore.createTok).1.promises.length 2
          (.value 9)).getPromise (initStore.createTok).1.promises.length =
        some (.cancelledErr (.mk 3))) ∧
    ((opSettle (({ (initStore.createTok).1 with
        promises := (initStore.createTok).1.promises ++ [none] } : Store).setTok 2
        { (initStore.createTok).1.getTok 2 with
          _callbacks := some [Cb.rejectPromise (initStore.createTok).1.promises.length] })
        (initStore.createTok).1.promises.length 2 (.value 9)).getPromise
        (initStore.createTok).1.promises.length = some (.value 9) ∧
      ((cancelToken envNone 3
        (opSettle (({ (initStore.createTok).1 with
            promises := (initStore.createTok).1.promises ++ [none] } : Store).setTok 2
          { (initStore.createTok).1.getTok 2 with
            _callbacks := some [Cb.rejectPromise (initStore.createTok).1.promises.length] })
          (initStore.createTok).1.promises.length 2 (.value 9))
        2 (.mk 3)).1).getPromise (initStore.createTok).1.promises.length =
        some (.value 9)) :=
  racePromise_identity_and_settlement envNone 2 (initStore.createTok).1 2 (.mk 3) (.value 9)
    (by decide) (by decide) (by decide) (by decide)

/-! ### Wiring machinery for the combinators -/

theorem storeExt (a b : Store) (h1 : a.tokens = b.tokens) (h2 : a.cells = b.cells)
    (h3 : a.promises = b.promises) (h4 : a.events = b.events) : a = b := by
  cases a
  cases b
  cases h1
  cases h2
  cases h3
  cases h4
  rfl

theorem nthD_of_all_eq {d : α} : ∀ (l : List α), (∀ x ∈ l, x = d) → ∀ (i : Nat),
    nthD d l i = d := by
  intro l
  induction l with
  | nil => intro _ i; rfl
  | cons a l ih =>
    intro h i
    cases i with
    | zero => exact h a (List.mem_cons_self a l)
    | succ i => exact (nthD_succ d a l i).trans (ih (fun x hx => h x (List.mem_cons_of_mem a hx)) i)

theorem baseStore_getTok_ge2 (n j : Nat) : (baseStore n).getTok (j + 2) = freshTok := by
  show nthD freshTok (cancelledTokInit :: continueTokInit :: List.replicate n freshTok)
    (j + 2) = freshTok
  rw [nthD_succ, nthD_succ, nthD_replicate]
  split <;> rfl

theorem baseStore_length (n : Nat) : (baseStore n).tokens.length = n + 2 := by
  show (cancelledTokInit :: continueTokInit :: List.replicate n freshTok).length = n + 2
  simp [List.length_replicate]

theorem mem_inputsList {n j : Nat} : j ∈ inputsList n ↔ 2 ≤ j ∧ j < n + 2 := by
  unfold inputsList
  simp only [List.mem_map, List.mem_range]
  constructor
  · rintro ⟨i, hi, rfl⟩
    omega
  · rintro ⟨h2, hlt⟩
    exact ⟨j - 2, by omega, by omega⟩

theorem inputsList_nodup (n : Nat) : (inputsList n).Nodup := by
  unfold inputsList
  exact (List.nodup_range n).map (fun a b h => by omega)

theorem fold_register (env : Nat → Reason → Bool) (g : Nat) (h : Cb) :
    ∀ (js : List Nat) (s : Store), js.Nodup →
      (∀ j ∈ js, s.getTok j = freshTok) → (∀ j ∈ js, j < s.tokens.length) →
      ((js.foldl (fun acc i => (onCancelled env g acc i h).1) s).tokens.length =
        s.tokens.length) ∧
      ((js.foldl (fun acc i => (onCancelled env g acc i h).1) s).cells = s.cells) ∧
      ((js.foldl (fun acc i => (onCancelled env g acc i h).1) s).promises = s.promises) ∧
      ((js.foldl (fun acc i => (onCancelled env g acc i h).1) s).events = s.events) ∧
      (∀ j ∈ js, (js.foldl (fun acc i => (onCancelled env g acc i h).1) s).getTok j =
        { freshTok with _callbacks := some [h] }) ∧
      (∀ k, k ∉ js → (js.foldl (fun acc i => (onCancelled env g acc i h).1) s).getTok k =
        s.getTok k) := by
  intro js
  induction js with
  | nil =>
    intro s _ _ _
    exact ⟨rfl, rfl, rfl, rfl, fun j hj => absurd hj (List.not_mem_nil j), fun k _ => rfl⟩
  | cons j js ih =>
    intro s hnd hfr hlt
    have hstep : (onCancelled env g s j h).1 =
        s.setTok j { freshTok with _callbacks := some [h] } := by
      rw [onCancelled_eq, hfr j (List.mem_cons_self j js)]
      rw [if_neg (by simp [freshTok]), if_neg (by simp [freshTok])]
      rw [show (freshTok)._callbacks = some [] from rfl]
      dsimp only
      rw [show addCb [] h = [h] from rfl]
    have hlt1 : j < s.tokens.length := hlt j (List.mem_cons_self j js)
    have hnm : j ∉ js := (List.nodup_cons.1 hnd).1
    have hfr1 : ∀ j' ∈ js, ((onCancelled env g s j h).1).getTok j' = freshTok := by
      intro j' hj'
      rw [hstep, getTok_setTok, if_neg (by
        rintro ⟨rfl, _⟩
        exact hnm hj')]
      exact hfr j' (List.mem_cons_of_mem j hj')
    have hlt2 : ∀ j' ∈ js, j' < ((onCancelled env g s j h).1).tokens.length := by
      intro j' hj'
      rw [hstep, tokensLength_setTok]
      exact hlt j' (List.mem_cons_of_mem j hj')
    have hmain := ih ((onCancelled env g s j h).1) (List.nodup_cons.1 hnd).2 hfr1 hlt2
    rw [List.foldl_cons]
    refine ⟨?_, ?_, ?_, ?_, ?_, ?_⟩
    · rw [hmain.1, hstep, tokensLength_setTok]
    · rw [hmain.2.1, hstep]
      rfl
    · rw [hmain.2.2.1, hstep]
      rfl
    · rw [hmain.2.2.2.1, hstep]
      rfl
    · intro j' hj'
      rcases List.mem_cons.1 hj' with rfl | hj2
      · rw [hmain.2.2.2.2.2 j' hnm, hstep, getTok_setTok, if_pos ⟨rfl, hlt1⟩]
      · exact hmain.2.2.2.2.1 j' hj2
    · intro k hk
      rw [hmain.2.2.2.2.2 k (fun hx => hk (List.mem_cons_of_mem j hx)), hstep, getTok_setTok,
        if_neg (by
          rintro ⟨rfl, _⟩
          exact hk (List.mem_cons_self j js))]

theorem deleteCb_getTok (s : Store) (t : Nat) (cb : Cb) (k : Nat) :
    (s.deleteCb t cb).getTok k =
      if t = k ∧ t < s.tokens.length then delCb (s.getTok k) cb else s.getTok k := by
  rw [deleteCb_eq]
  cases hcb : (s.getTok t)._callbacks with
  | none =>
    by_cases hc : t = k ∧ t < s.tokens.length
    · rcases hc with ⟨rfl, hl⟩
      rw [if_pos ⟨rfl, hl⟩]
      unfold delCb
      rw [hcb]
    · rw [if_neg hc]
  | some cbs =>
    rw [getTok_setTok]
    by_cases hc : t = k ∧ t < s.tokens.length
    · rcases hc with ⟨rfl, hl⟩
      rw [if_pos ⟨rfl, hl⟩, if_pos ⟨rfl, hl⟩]
      unfold delCb
      rw [hcb]
    · rw [if_neg hc, if_neg hc]

theorem fold_deleteCb_getTok (cb : Cb) :
    ∀ (js : List Nat) (s : Store) (k : Nat), js.Nodup →
      (∀ j ∈ js, j < s.tokens.length) →
      ((js.foldl (fun acc i => acc.deleteCb i cb) s).getTok k) =
        if k ∈ js then delCb (s.getTok k) cb else s.getTok k := by
  intro js
  induction js with
  | nil =>
    intro s k _ _
    rw [if_neg (List.not_mem_nil k)]
    rfl
  | cons j js ih =>
    intro s k hnd hlt
    have hnm : j ∉ js := (List.nodup_cons.1 hnd).1
    rw [List.foldl_cons, ih (s.deleteCb j cb) k (List.nodup_cons.1 hnd).2 (by
      intro j' hj'
      rw [tokensLength_deleteCb]
      exact hlt j' (List.mem_cons_of_mem j hj'))]
    rw [deleteCb_getTok]
    by_cases hkj : k ∈ js
    · rw [if_pos hkj, if_pos (List.mem_cons_of_mem j hkj)]
      rw [if_neg (by
        rintro ⟨rfl, _⟩
        exact hnm hkj)]
    · rw [if_neg hkj]
      by_cases hke : j = k
      · subst hke
        rw [if_pos ⟨rfl, hlt j (List.mem_cons_self j js)⟩,
          if_pos (List.mem_cons_self j js)]
      · rw [if_neg (by
          rintro ⟨rfl, _⟩
          exact hke rfl), if_neg (by
          intro hx
          rcases List.mem_cons.1 hx with rfl | h2
          · exact hke rfl
          · exact hkj h2)]

theorem raceStore_length (n : Nat) : (raceStore n).tokens.length = n + 3 := by
  show (cancelledTokInit :: continueTokInit ::
    (List.replicate n { freshTok with _callbacks := some [wiredRaceCb n] } ++
      [freshTok])).length = n + 3
  simp [List.length_replicate]

theorem raceStore_getTok_input (n k : Nat) (hk : k < n) :
    (raceStore n).getTok (k + 2) = { freshTok with _callbacks := some [wiredRaceCb n] } := by
  show nthD freshTok (cancelledTokInit :: continueTokInit ::
    (List.replicate n { freshTok with _callbacks := some [wiredRaceCb n] } ++
      [freshTok])) (k + 2) = _
  rw [nthD_succ, nthD_succ, nthD_append_left _ _ _ k (by simpa using hk), nthD_replicate,
    if_pos hk]

theorem raceStore_getTok_comb (n : Nat) : (raceStore n).getTok (n + 2) = freshTok := by
  show nthD freshTok (cancelledTokInit :: continueTokInit ::
    (List.replicate n { freshTok with _callbacks := some [wiredRaceCb n] } ++
      [freshTok])) (n + 2) = _
  rw [nthD_succ, nthD_succ]
  have := nthD_append_right freshTok
    (List.replicate n { freshTok with _callbacks := some [wiredRaceCb n] }) [freshTok] 0
  simpa using this

theorem spre_getTok_ge2 (n j : Nat) :
    (({ baseStore n with tokens := (baseStore n).tokens ++ [freshTok] } : Store)).getTok
      (j + 2) = freshTok := by
  show nthD freshTok (cancelledTokInit :: continueTokInit ::
    (List.replicate n freshTok ++ [freshTok])) (j + 2) = freshTok
  rw [nthD_succ, nthD_succ]
  refine nthD_of_all_eq _ ?_ j
  intro x hx
  rcases List.mem_append.1 hx with hx | hx
  · exact List.eq_of_mem_replicate hx
  · exact List.mem_singleton.1 hx

theorem spre_length (n : Nat) :
    (({ baseStore n with tokens := (baseStore n).tokens ++ [freshTok] } : Store)).tokens.length =
      n + 3 := by
  show ((baseStore n).tokens ++ [freshTok]).length = n + 3
  rw [List.length_append, baseStore_length]
  rfl

theorem race_wire (env : Nat → Reason → Bool) (g n : Nat) :
    raceModel env g (baseStore n) (inputsList n) = (raceStore n, n + 2) := by
  have hfind : (inputsList n).find?
      (fun i => ((baseStore n).getTok i)._isCancelled) = none := by
    rw [List.find?_eq_none]
    intro x hx
    rcases mem_inputsList.1 hx with ⟨h2, hlt⟩
    have hx2 : x = (x - 2) + 2 := by omega
    rw [hx2, baseStore_getTok_ge2]
    simp [freshTok]
  unfold raceModel
  rw [hfind]
  dsimp only [Store.createTok]
  rw [baseStore_length]
  have hreg := fold_register env g (Cb.raceHandler (n + 2) (inputsList n)) (inputsList n)
    ({ baseStore n with tokens := (baseStore n).tokens ++ [freshTok] } : Store)
    (inputsList_nodup n)
    (fun j hj => by
      rcases mem_inputsList.1 hj with ⟨h2, hlt⟩
      have hj2 : j = (j - 2) + 2 := by omega
      rw [hj2, spre_getTok_ge2])
    (fun j hj => by
      rcases mem_inputsList.1 hj with ⟨h2, hlt⟩
      rw [spre_length]
      omega)
  refine Prod.ext ?_ rfl
  dsimp only
  refine storeExt _ _ ?_ ?_ ?_ ?_
  · refine nthD_ext freshTok _ _ ?_ ?_
    · rw [show ∀ (s' : Store), s'.tokens.length =
        s'.tokens.length from fun _ => rfl]
      rw [hreg.1, spre_length, raceStore_length]
    · intro i hi
      rw [hreg.1, spre_length] at hi
      by_cases h0 : i = 0
      · subst h0
        rw [show nthD freshTok (raceStore n).tokens 0 = cancelledTokInit from rfl]
        have h00 : (0 : Nat) ∉ inputsList n := by
          intro hx
          rcases mem_inputsList.1 hx with ⟨h2, _⟩
          omega
        exact hreg.2.2.2.2.2 0 h00
      by_cases h1 : i = 1
      · subst h1
        rw [show nthD freshTok (raceStore n).tokens 1 = continueTokInit from rfl]
        have h11 : (1 : Nat) ∉ inputsList n := by
          intro hx
          rcases mem_inputsList.1 hx with ⟨h2, _⟩
          omega
        exact hreg.2.2.2.2.2 1 h11
      by_cases hc : i = n + 2
      · subst hc
        have hnm : (n + 2 : Nat) ∉ inputsList n := by
          intro hx
          rcases mem_inputsList.1 hx with ⟨_, hlt⟩
          omega
        rw [show nthD freshTok (raceStore n).tokens (n + 2) = (raceStore n).getTok (n + 2)
          from rfl, raceStore_getTok_comb]
        rw [show nthD freshTok ((inputsList n).foldl (fun acc i =>
          (onCancelled env g acc i (Cb.raceHandler (n + 2) (inputsList n))).1)
          ({ baseStore n with tokens := (baseStore n).tokens ++ [freshTok] } : Store)).tokens
          (n + 2) = ((inputsList n).foldl (fun acc i =>
          (onCancelled env g acc i (Cb.raceHandler (n + 2) (inputsList n))).1)
          ({ baseStore n with tokens := (baseStore n).tokens ++ [freshTok] } : Store)).getTok
          (n + 2) from rfl]
        rw [hreg.2.2.2.2.2 (n + 2) hnm]
        exact spre_getTok_ge2 n n
      · have h2i : 2 ≤ i ∧ i < n + 2 := by omega
        have hmem : i ∈ inputsList n := mem_inputsList.2 h2i
        have hi2 : i = (i - 2) + 2 := by omega
        rw [show nthD freshTok ((inputsList n).foldl (fun acc i =>
          (onCancelled env g acc i (Cb.raceHandler (n + 2) (inputsList n))).1)
          ({ baseStore n with tokens := (baseStore n).tokens ++ [freshTok] } : Store)).tokens
          i = ((inputsList n).foldl (fun acc i =>
          (onCancelled env g acc i (Cb.raceHandler (n + 2) (inputsList n))).1)
          ({ baseStore n with tokens := (baseStore n).tokens ++ [freshTok] } : Store)).getTok
          i from rfl]
        rw [hreg.2.2.2.2.1 i hmem]
        rw [show nthD freshTok (raceStore n).tokens i = (raceStore n).getTok i from rfl]
        rw [hi2, raceStore_getTok_input n (i - 2) (by omega)]
        rfl
  · rw [hreg.2.1]
    rfl
  · rw [hreg.2.2.1]
    rfl
  · rw [hreg.2.2.2.1]
    rfl

theorem race_first_cancel (env : Nat → Reason → Bool) (fuel n k : Nat) (r : Reason)
    (hk : k < n) :
    ((cancelToken env (fuel + 2) (raceStore n) (k + 2) r).1.getTok (n + 2))._isCancelled =
      true ∧
    ((cancelToken env (fuel + 2) (raceStore n) (k + 2) r).1.getTok (n + 2))._reason = r ∧
    (cancelToken env (fuel + 2) (raceStore n) (k + 2) r).2 = false := by
  have h21 : fuel + 2 = fuel + 1 + 1 := rfl
  have hg0 : (raceStore n).getTok (k + 2) =
      ⟨false, true, .undef, some [Cb.raceHandler (n + 2) (inputsList n)]⟩ := by
    rw [raceStore_getTok_input n k hk]
    rfl
  rw [h21, cancelToken_succ, hg0]
  dsimp only
  simp only [Bool.false_eq_true, if_false]
  rw [runCbs_cons, invoke_raceHandler]
  dsimp only
  have hnmem : (n + 2) ∉ inputsList n := by
    intro hx
    rcases mem_inputsList.1 hx with ⟨_, hlt⟩
    omega
  have hrange : ∀ j ∈ inputsList n,
      j < ((raceStore n).setTok (k + 2)
        (⟨true, true, r, some [Cb.raceHandler (n + 2) (inputsList n)]⟩ :
          TokenState)).tokens.length := by
    intro j hj
    rcases mem_inputsList.1 hj with ⟨h2, hlt⟩
    rw [tokensLength_setTok, raceStore_length]
    omega
  have hne : ¬(k + 2 = n + 2 ∧ k + 2 < (raceStore n).tokens.length) := by
    rintro ⟨he, _⟩
    omega
  have hFget : ((inputsList n).foldl
      (fun acc i => acc.deleteCb i (Cb.raceHandler (n + 2) (inputsList n)))
      ((raceStore n).setTok (k + 2)
        (⟨true, true, r, some [Cb.raceHandler (n + 2) (inputsList n)]⟩ :
          TokenState))).getTok (n + 2) = freshTok := by
    rw [fold_deleteCb_getTok _ (inputsList n) _ (n + 2) (inputsList_nodup n) hrange,
      if_neg hnmem, getTok_setTok, if_neg hne, raceStore_getTok_comb]
  have hlenF : ((inputsList n).foldl
      (fun acc i => acc.deleteCb i (Cb.raceHandler (n + 2) (inputsList n)))
      ((raceStore n).setTok (k + 2)
        (⟨true, true, r, some [Cb.raceHandler (n + 2) (inputsList n)]⟩ :
          TokenState))).tokens.length = n + 3 := by
    rw [tokensLength_fold_deleteCb, tokensLength_setTok, raceStore_length]
  have hX : (((inputsList n).foldl
      (fun acc i => acc.deleteCb i (Cb.raceHandler (n + 2) (inputsList n)))
      ((raceStore n).setTok (k + 2)
        (⟨true, true, r, some [Cb.raceHandler (n + 2) (inputsList n)]⟩ :
          TokenState))).setTok (n + 2)
      (⟨true, true, r, some []⟩ : TokenState)).getTok (n + 2) =
      (⟨true, true, r, some []⟩ : TokenState) := by
    rw [getTok_setTok, if_pos (⟨rfl, by rw [hlenF]; omega⟩ : _ ∧ _)]
  have hd1 : ((((inputsList n).foldl
      (fun acc i => acc.deleteCb i (Cb.raceHandler (n + 2) (inputsList n)))
      ((raceStore n).setTok (k + 2)
        (⟨true, true, r, some [Cb.raceHandler (n + 2) (inputsList n)]⟩ :
          TokenState))).setTok (n + 2)
      (⟨true, true, r, some []⟩ : TokenState)).disposeTok (n + 2)).getTok (n + 2) =
      (⟨true, true, r, none⟩ : TokenState) := by
    rw [disposeTok_eq, getTok_setTok,
      if_pos (⟨rfl, by rw [tokensLength_setTok, hlenF]; omega⟩ : _ ∧ _), hX]
  have hfinal : (((((inputsList n).foldl
      (fun acc i => acc.deleteCb i (Cb.raceHandler (n + 2) (inputsList n)))
      ((raceStore n).setTok (k + 2)
        (⟨true, true, r, some [Cb.raceHandler (n + 2) (inputsList n)]⟩ :
          TokenState))).setTok (n + 2)
      (⟨true, true, r, some []⟩ : TokenState)).disposeTok (n + 2)).disposeTok
      (k + 2)).getTok (n + 2) = (⟨true, true, r, none⟩ : TokenState) := by
    rw [disposeTok_eq, getTok_setTok, if_neg (by
      rintro ⟨he, _⟩
      omega), hd1]
  rw [cancelToken_succ, hFget]
  dsimp only [freshTok]
  simp only [Bool.false_eq_true, if_false]
  rw [runCbs_nil]
  dsimp only
  simp only [Bool.false_eq_true, if_false]
  rw [runCbs_nil]
  dsimp only
  simp only [Bool.false_eq_true, if_false]
  rw [hfinal]
  refine ⟨rfl, rfl, trivial⟩

/-! ### Claim theorem C7 -/

/-- C7: `race` returns, on its fast path, the first already-cancelled
input token itself — same identity, store untouched, no new source
built; otherwise (here: `n` fresh distinct sources) it wires the shared
handler onto every input, and as soon as any input is cancelled the
combined token is cancelled with that input's reason, without the
exception flag. -/
theorem race_fastpath_and_first_cancel (env : Nat → Reason → Bool) (g fuel n k : Nat)
    (r : Reason) (hk : k < n) :
    (∀ (s : Store) (inputs : List Nat) (i : Nat),
      inputs.find? (fun t => (s.getTok t)._isCancelled) = some i →
      raceModel env g s inputs = (s, i)) ∧
    raceModel env g (baseStore n) (inputsList n) = (raceStore n, n + 2) ∧
    (((cancelToken env (fuel + 2) (raceStore n) (k + 2) r).1.getTok (n + 2))._isCancelled =
      true ∧
     ((cancelToken env (fuel + 2) (raceStore n) (k + 2) r).1.getTok (n + 2))._reason = r ∧
     (cancelToken env (fuel + 2) (raceStore n) (k + 2) r).2 = false) := by
  refine ⟨?_, race_wire env g n, race_first_cancel env fuel n k r hk⟩
  intro s inputs i hfind
  unfold raceModel
  rw [hfind]

/-- C7 witness: two fresh sources, the second one cancelled first with
reason `mk 8`. -/
theorem race_fastpath_and_first_cancel_witness :
    (∀ (s : Store) (inputs : List Nat) (i : Nat),
      inputs.find? (fun t => (s.getTok t)._isCancelled) = some i →
      raceModel envNone 2 s inputs = (s, i)) ∧
    raceModel envNone 2 (baseStore 2) (inputsList 2) = (raceStore 2, 4) ∧
    (((cancelToken envNone 2 (raceStore 2) 3 (.mk 8)).1.getTok 4)._isCancelled = true ∧
     ((cancelToken envNone 2 (raceStore 2) 3 (.mk 8)).1.getTok 4)._reason = .mk 8 ∧
     (cancelToken envNone 2 (raceStore 2) 3 (.mk 8)).2 = false) :=
  race_fastpath_and_first_cancel envNone 2 0 2 1 (.mk 8) (by decide)

/-! ### Counting and indexing lemmas for the `all` countdown -/

theorem nthD_replicate_none (n i : Nat) :
    nthD (none : Option Reason) (List.replicate n none) i = none := by
  rw [nthD_replicate]
  split <;> rfl

theorem nthD_map (f : α → β) (d : α) (d' : β) :
    ∀ (l : List α) (i : Nat), i < l.length → nthD d' (l.map f) i = f (nthD d l i) := by
  intro l
  induction l with
  | nil => intro i h; simp at h
  | cons a l ih =>
    intro i h
    cases i with
    | zero => rfl
    | succ i =>
      rw [List.map_cons, nthD_succ, nthD_succ]
      exact ih i (by simpa using Nat.lt_of_succ_lt_succ h)

theorem mem_nthD (d : α) : ∀ (l : List α) (x : α), x ∈ l →
    ∃ i, i < l.length ∧ nthD d l i = x := by
  intro l
  induction l with
  | nil => intro x hx; cases hx
  | cons a l ih =>
    intro x hx
    rcases List.mem_cons.1 hx with rfl | hx2
    · exact ⟨0, by simp, rfl⟩
    · rcases ih x hx2 with ⟨i, hi, he⟩
      exact ⟨i + 1, by simpa using Nat.succ_lt_succ hi, he⟩

theorem countP_set_some : ∀ (dl : List (Option Reason)) (i : Nat) (r : Reason),
    i < dl.length → nthD none dl i = none →
    (dl.set i (some r)).countP (fun o => o.isSome) =
      dl.countP (fun o => o.isSome) + 1 := by
  intro dl
  induction dl with
  | nil => intro i r h; simp at h
  | cons o dl ih =>
    intro i r hi hn
    cases i with
    | zero =>
      rw [nthD_zero] at hn
      subst hn
      rw [show (((none : Option Reason) :: dl).set 0 (some r)) = some r :: dl from rfl]
      rw [List.countP_cons, List.countP_cons]
      simp
    | succ i =>
      rw [nthD_succ] at hn
      rw [show ((o :: dl).set (i + 1) (some r)) = o :: dl.set i (some r) from rfl]
      rw [List.countP_cons, List.countP_cons,
        ih i r (by simpa using Nat.lt_of_succ_lt_succ hi) hn]
      omega

theorem countP_lt_of_nthD_none : ∀ (dl : List (Option Reason)) (i : Nat),
    i < dl.length → nthD none dl i = none →
    dl.countP (fun o => o.isSome) < dl.length := by
  intro dl
  induction dl with
  | nil => intro i h; simp at h
  | cons o dl ih =>
    intro i hi hn
    cases i with
    | zero =>
      rw [nthD_zero] at hn
      subst hn
      rw [List.countP_cons]
      have := List.countP_le_length (fun o => o.isSome) (l := dl)
      simp only [Option.isSome_none, List.length_cons, Bool.false_eq_true, if_false]
      omega
    | succ i =>
      rw [nthD_succ] at hn
      rw [List.countP_cons]
      have := ih i (by simpa using Nat.lt_of_succ_lt_succ hi) hn
      by_cases ho : (o.isSome : Bool)
      · simp only [ho, List.length_cons, if_true]
        omega
      · simp only [Bool.not_eq_true] at ho
        simp only [ho, List.length_cons, Bool.false_eq_true, if_false]
        omega

theorem all_isSome_iff_countP (dl : List (Option Reason)) :
    dl.all Option.isSome = true ↔ dl.countP (fun o => o.isSome) = dl.length := by
  induction dl with
  | nil => simp
  | cons o dl ih =>
    rw [List.all_cons, List.countP_cons, List.length_cons, Bool.and_eq_true, ih]
    have hle := List.countP_le_length (fun o => o.isSome) (l := dl)
    constructor
    · rintro ⟨h1, h2⟩
      rw [h1, h2]
      simp
    · intro h
      by_cases ho : (o.isSome : Bool) = true
      · refine ⟨ho, ?_⟩
        rw [ho, if_pos rfl] at h
        omega
      · exfalso
        have ho2 : (o.isSome : Bool) = false := by
          revert ho
          cases (o.isSome : Bool) <;> simp
        rw [ho2, if_neg Bool.false_ne_true] at h
        omega

theorem countP_replicate_none (n : Nat) :
    (List.replicate n (none : Option Reason)).countP (fun o => o.isSome) = 0 := by
  induction n with
  | zero => rfl
  | succ n ih => rw [List.replicate, List.countP_cons, ih]; rfl

theorem mkCombTok_fresh {n : Nat} {dl : List (Option Reason)}
    (hall : dl.all Option.isSome = false) : mkCombTok n dl = freshTok := by
  unfold mkCombTok
  rw [if_neg]
  rintro ⟨_, h⟩
  rw [hall] at h
  cases h

theorem mkCombTok_done {n : Nat} {dl : List (Option Reason)} (hn : 0 < n)
    (hall : dl.all Option.isSome = true) :
    mkCombTok n dl =
      { _isCancelled := true, _canBeCancelled := true,
        _reason := .list (dl.map (fun o => o.getD .undef)), _callbacks := none } := by
  unfold mkCombTok
  rw [if_pos ⟨hn, hall⟩]

theorem mkInputTok_reason (n : Nat) (o : Option Reason) :
    (mkInputTok n o)._reason = o.getD .undef := by
  cases o <;> rfl

theorem map_range_nthD (f : Option Reason → β) :
    ∀ (dl : List (Option Reason)) (n : Nat), dl.length = n →
      (List.range n).map (fun j => f (nthD none dl j)) = dl.map f := by
  intro dl
  induction dl with
  | nil =>
    intro n hn
    subst hn
    rfl
  | cons o dl ih =>
    intro n hn
    subst hn
    rw [List.length_cons, List.range_succ_eq_map, List.map_cons, List.map_map, List.map_cons]
    rw [show f (nthD none (o :: dl) 0) = f o from rfl]
    congr 1
    rw [show ((fun j => f (nthD none (o :: dl) j)) ∘ Nat.succ) =
      (fun j => f (nthD none dl j)) from rfl]
    exact ih dl.length rfl

theorem allStore_length (n : Nat) (dl : List (Option Reason)) (hlen : dl.length = n) :
    (allStore n dl).tokens.length = n + 3 := by
  show (cancelledTokInit :: continueTokInit ::
    (dl.map (mkInputTok n) ++ [mkCombTok n dl])).length = n + 3
  simp [List.length_map, hlen]

theorem allStore_getTok_input (n : Nat) (dl : List (Option Reason)) (i : Nat)
    (hlen : dl.length = n) (hi : i < n) :
    (allStore n dl).getTok (i + 2) = mkInputTok n (nthD none dl i) := by
  show nthD freshTok (cancelledTokInit :: continueTokInit ::
    (dl.map (mkInputTok n) ++ [mkCombTok n dl])) (i + 2) = _
  rw [nthD_succ, nthD_succ, nthD_append_left _ _ _ i (by simpa [hlen] using hi),
    nthD_map (mkInputTok n) none freshTok dl i (by omega)]

theorem allStore_getTok_comb (n : Nat) (dl : List (Option Reason)) (hlen : dl.length = n) :
    (allStore n dl).getTok (n + 2) = mkCombTok n dl := by
  show nthD freshTok (cancelledTokInit :: continueTokInit ::
    (dl.map (mkInputTok n) ++ [mkCombTok n dl])) (n + 2) = _
  rw [nthD_succ, nthD_succ]
  have := nthD_append_right freshTok (dl.map (mkInputTok n)) [mkCombTok n dl] 0
  rw [List.length_map, hlen] at this
  simpa using this

theorem inputsList_length (n : Nat) : (inputsList n).length = n := by
  simp [inputsList]

theorem mkCombTok_replicate_none (n : Nat) :
    mkCombTok n (List.replicate n none) = freshTok := by
  cases n with
  | zero =>
    unfold mkCombTok
    rw [if_neg]
    rintro ⟨h, _⟩
    omega
  | succ n => exact mkCombTok_fresh rfl

theorem all_wire (env : Nat → Reason → Bool) (g n : Nat) :
    allModel env g (baseStore n) (inputsList n) =
      (allStore n (List.replicate n none), n + 2) := by
  have hany : (inputsList n).any
      (fun i => !((baseStore n).getTok i)._canBeCancelled) = false := by
    rw [List.any_eq_false]
    intro x hx
    rcases mem_inputsList.1 hx with ⟨h2, hlt⟩
    have hx2 : x = (x - 2) + 2 := by omega
    rw [hx2, baseStore_getTok_ge2]
    simp [freshTok]
  unfold allModel
  rw [hany]
  simp only [Bool.false_eq_true, if_false]
  dsimp only [Store.createTok]
  rw [baseStore_length]
  rw [show ({ baseStore n with
    tokens := (baseStore n).tokens ++ [freshTok] } : Store).cells.length = 0 from rfl]
  rw [inputsList_length]
  have hreg := fold_register env g (Cb.allHandler 0 (n + 2) (inputsList n)) (inputsList n)
    ({ { baseStore n with tokens := (baseStore n).tokens ++ [freshTok] } with
      cells := ({ baseStore n with
        tokens := (baseStore n).tokens ++ [freshTok] } : Store).cells ++ [(n : Int)] } : Store)
    (inputsList_nodup n)
    (fun j hj => by
      rcases mem_inputsList.1 hj with ⟨h2, hlt⟩
      have hj2 : j = (j - 2) + 2 := by omega
      rw [hj2]
      exact spre_getTok_ge2 n (j - 2))
    (fun j hj => by
      rcases mem_inputsList.1 hj with ⟨h2, hlt⟩
      show j < (({ baseStore n with
        tokens := (baseStore n).tokens ++ [freshTok] } : Store)).tokens.length
      rw [spre_length]
      omega)
  refine Prod.ext ?_ rfl
  dsimp only
  have hlen3 := hreg.1.trans (spre_length n)
  refine storeExt _ _ ?_ ?_ ?_ ?_
  · refine nthD_ext freshTok _ _ ?_ ?_
    · exact hlen3.trans (allStore_length n _ (List.length_replicate n none)).symm
    · intro i hi
      rw [hlen3] at hi
      by_cases h0 : i = 0
      · subst h0
        have h00 : (0 : Nat) ∉ inputsList n := by
          intro hx
          rcases mem_inputsList.1 hx with ⟨h2, _⟩
          omega
        exact hreg.2.2.2.2.2 0 h00
      by_cases h1 : i = 1
      · subst h1
        have h11 : (1 : Nat) ∉ inputsList n := by
          intro hx
          rcases mem_inputsList.1 hx with ⟨h2, _⟩
          omega
        exact hreg.2.2.2.2.2 1 h11
      by_cases hc : i = n + 2
      · subst hc
        have hnm : (n + 2 : Nat) ∉ inputsList n := by
          intro hx
          rcases mem_inputsList.1 hx with ⟨_, hlt⟩
          omega
        exact ((hreg.2.2.2.2.2 (n + 2) hnm).trans (spre_getTok_ge2 n n)).trans
          ((allStore_getTok_comb n _ (List.length_replicate n none)).trans
            (mkCombTok_replicate_none n)).symm
      · have h2i : 2 ≤ i ∧ i < n + 2 := by omega
        have hmem : i ∈ inputsList n := mem_inputsList.2 h2i
        have hi2 : i = (i - 2) + 2 := by omega
        rw [hi2] at hmem ⊢
        exact (hreg.2.2.2.2.1 _ hmem).trans
          ((allStore_getTok_input n _ (i - 2) (List.length_replicate n none)
            (by omega)).trans
            (congrArg (mkInputTok n) (nthD_replicate_none n (i - 2)))).symm
  · refine hreg.2.1.trans ?_
    show [(n : Int)] = (allStore n (List.replicate n none)).cells
    rw [show (allStore n (List.replicate n none)).cells = [(n : Int) -
      ((List.replicate n (none : Option Reason)).countP (fun o => o.isSome) : Int)] from rfl,
      countP_replicate_none]
    simp
  · exact hreg.2.2.1
  · exact hreg.2.2.2.1

/-! ### One cancellation step on the wired `all` store -/

theorem set_last (w v : α) : ∀ (l : List α) (j : Nat), j = l.length →
    (l ++ [w]).set j v = l ++ [v] := by
  intro l
  induction l with
  | nil =>
    intro j hj
    subst hj
    rfl
  | cons a l ih =>
    intro j hj
    subst hj
    show ((a :: (l ++ [w])).set (l.length + 1) v) = a :: (l ++ [v])
    rw [show ((a :: (l ++ [w])).set (l.length + 1) v) = a :: ((l ++ [w]).set l.length v)
      from rfl]
    rw [ih l.length rfl]

theorem foldl_set_length (seq : List (Nat × Reason)) :
    ∀ (dl : List (Option Reason)),
      (seq.foldl (fun acc p => acc.set p.1 (some p.2)) dl).length = dl.length := by
  induction seq with
  | nil =>
    intro dl
    rfl
  | cons p rest ih =>
    intro dl
    rw [show ((p :: rest).foldl (fun acc p => acc.set p.1 (some p.2)) dl) =
      rest.foldl (fun acc p => acc.set p.1 (some p.2)) (dl.set p.1 (some p.2)) from rfl,
      ih, List.length_set]

theorem all_step (env : Nat → Reason → Bool) (fuel n i : Nat) (r : Reason)
    (dl : List (Option Reason)) (hlen : dl.length = n) (hi : i < n)
    (hnone : nthD none dl i = none) :
    cancelToken env (fuel + 2) (allStore n dl) (i + 2) r =
      (allStore n (dl.set i (some r)), false) := by
  have h21 : fuel + 2 = fuel + 1 + 1 := rfl
  have hcnt : dl.countP (fun o => o.isSome) < n := by
    have h := countP_lt_of_nthD_none dl i (by omega) hnone
    omega
  have hallF : dl.all Option.isSome = false := by
    cases hb : dl.all Option.isSome
    · rfl
    · exfalso
      have h := (all_isSome_iff_countP dl).1 hb
      omega
  have hg0 : (allStore n dl).getTok (i + 2) =
      (⟨false, true, .undef, some [Cb.allHandler 0 (n + 2) (inputsList n)]⟩ : TokenState) := by
    have h := allStore_getTok_input n dl i hlen hi
    rw [hnone] at h
    exact h
  have hset2 : ∀ (X : List TokenState) (j : Nat) (v : TokenState),
      (cancelledTokInit :: continueTokInit :: X).set (j + 2) v =
        cancelledTokInit :: continueTokInit :: X.set j v := fun _ _ _ => rfl
  have hgc : (((allStore n dl).setTok (i + 2)
      (⟨true, true, r, some [Cb.allHandler 0 (n + 2) (inputsList n)]⟩ :
        TokenState))).getCell 0 =
      (n : Int) - (dl.countP (fun o => o.isSome) : Int) := rfl
  rw [h21, cancelToken_succ, hg0]
  dsimp only
  simp only [Bool.false_eq_true, if_false]
  rw [runCbs_cons, invoke_allHandler]
  dsimp only
  rw [hgc]
  by_cases hv : (n : Int) - (dl.countP (fun o => o.isSome) : Int) - 1 = 0
  · -- the countdown reaches zero: the combined token fires
    have hall' : (dl.set i (some r)).all Option.isSome = true := by
      rw [all_isSome_iff_countP, List.length_set,
        countP_set_some dl i r (by omega) hnone, hlen]
      omega
    have hreasons : (inputsList n).map (fun j =>
        (((((allStore n dl).setTok (i + 2)
          (⟨true, true, r, some [Cb.allHandler 0 (n + 2) (inputsList n)]⟩ :
            TokenState)).setCell 0
          ((n : Int) - (dl.countP (fun o => o.isSome) : Int) - 1))).getTok j)._reason) =
        (dl.set i (some r)).map (fun o => o.getD Reason.undef) := by
      have hc : ∀ j ∈ List.range n,
          ((fun j =>
            (((((allStore n dl).setTok (i + 2)
              (⟨true, true, r, some [Cb.allHandler 0 (n + 2) (inputsList n)]⟩ :
                TokenState)).setCell 0
              ((n : Int) - (dl.countP (fun o => o.isSome) : Int) - 1))).getTok j)._reason) ∘
            (fun j => j + 2)) j =
          (fun j => (fun o => o.getD Reason.undef) (nthD none (dl.set i (some r)) j)) j := by
        intro j hj
        have hjn : j < n := List.mem_range.1 hj
        show (((((allStore n dl).setTok (i + 2)
            (⟨true, true, r, some [Cb.allHandler 0 (n + 2) (inputsList n)]⟩ :
              TokenState)).setCell 0
            ((n : Int) - (dl.countP (fun o => o.isSome) : Int) - 1))).getTok (j + 2))._reason =
          (nthD none (dl.set i (some r)) j).getD Reason.undef
        rw [getTok_setCell, getTok_setTok, nthD_set]
        by_cases hji : i = j
        · subst hji
          rw [if_pos (⟨rfl, by rw [allStore_length n dl hlen]; omega⟩ : _ ∧ _),
            if_pos (⟨rfl, by omega⟩ : _ ∧ _)]
          rfl
        · rw [if_neg (by rintro ⟨he, _⟩; omega), if_neg (by rintro ⟨he, _⟩; omega),
            allStore_getTok_input n dl j hlen hjn, mkInputTok_reason]
      show ((List.range n).map (fun j => j + 2)).map (fun j =>
        (((((allStore n dl).setTok (i + 2)
          (⟨true, true, r, some [Cb.allHandler 0 (n + 2) (inputsList n)]⟩ :
            TokenState)).setCell 0
          ((n : Int) - (dl.countP (fun o => o.isSome) : Int) - 1))).getTok j)._reason) =
        (dl.set i (some r)).map (fun o => o.getD Reason.undef)
      rw [List.map_map, List.map_congr_left hc]
      exact map_range_nthD (fun o => o.getD Reason.undef) (dl.set i (some r)) n
        (by rw [List.length_set]; exact hlen)
    have hgcomb : (((allStore n dl).setTok (i + 2)
        (⟨true, true, r, some [Cb.allHandler 0 (n + 2) (inputsList n)]⟩ :
          TokenState)).setCell 0
        ((n : Int) - (dl.countP (fun o => o.isSome) : Int) - 1)).getTok (n + 2) =
        freshTok := by
      rw [getTok_setCell, getTok_setTok, if_neg (by rintro ⟨he, _⟩; omega),
        allStore_getTok_comb n dl hlen, mkCombTok_fresh hallF]
    rw [if_pos hv, hreasons, cancelToken_succ, hgcomb]
    dsimp only [freshTok]
    simp only [Bool.false_eq_true, if_false]
    rw [runCbs_nil]
    dsimp only
    simp only [Bool.false_eq_true, if_false]
    rw [runCbs_nil]
    dsimp only
    simp only [Bool.false_eq_true, if_false]
    have hlen2 : (((allStore n dl).setTok (i + 2)
        (⟨true, true, r, some [Cb.allHandler 0 (n + 2) (inputsList n)]⟩ :
          TokenState)).setCell 0
        ((n : Int) - (dl.countP (fun o => o.isSome) : Int) - 1)).tokens.length = n + 3 := by
      show ((allStore n dl).tokens.set (i + 2)
        (⟨true, true, r, some [Cb.allHandler 0 (n + 2) (inputsList n)]⟩ :
          TokenState)).length = n + 3
      rw [List.length_set, allStore_length n dl hlen]
    have hX2 : ((((allStore n dl).setTok (i + 2)
        (⟨true, true, r, some [Cb.allHandler 0 (n + 2) (inputsList n)]⟩ :
          TokenState)).setCell 0
        ((n : Int) - (dl.countP (fun o => o.isSome) : Int) - 1)).setTok (n + 2)
        (⟨true, true,
          Reason.list ((dl.set i (some r)).map (fun o => o.getD Reason.undef)),
          some []⟩ : TokenState)).getTok (n + 2) =
        (⟨true, true,
          Reason.list ((dl.set i (some r)).map (fun o => o.getD Reason.undef)),
          some []⟩ : TokenState) := by
      rw [getTok_setTok, if_pos (⟨rfl, by rw [hlen2]; omega⟩ : _ ∧ _)]
    have hD1 : ((((allStore n dl).setTok (i + 2)
        (⟨true, true, r, some [Cb.allHandler 0 (n + 2) (inputsList n)]⟩ :
          TokenState)).setCell 0
        ((n : Int) - (dl.countP (fun o => o.isSome) : Int) - 1)).setTok (n + 2)
        (⟨true, true,
          Reason.list ((dl.set i (some r)).map (fun o => o.getD Reason.undef)),
          some []⟩ : TokenState)).disposeTok (n + 2) =
        ((((allStore n dl).setTok (i + 2)
        (⟨true, true, r, some [Cb.allHandler 0 (n + 2) (inputsList n)]⟩ :
          TokenState)).setCell 0
        ((n : Int) - (dl.countP (fun o => o.isSome) : Int) - 1)).setTok (n + 2)
        (⟨true, true,
          Reason.list ((dl.set i (some r)).map (fun o => o.getD Reason.undef)),
          some []⟩ : TokenState)).setTok (n + 2)
        (⟨true, true,
          Reason.list ((dl.set i (some r)).map (fun o => o.getD Reason.undef)),
          none⟩ : TokenState) := by
      rw [disposeTok_eq, hX2]
    have hX3 : (((((allStore n dl).setTok (i + 2)
        (⟨true, true, r, some [Cb.allHandler 0 (n + 2) (inputsList n)]⟩ :
          TokenState)).setCell 0
        ((n : Int) - (dl.countP (fun o => o.isSome) : Int) - 1)).setTok (n + 2)
        (⟨true, true,
          Reason.list ((dl.set i (some r)).map (fun o => o.getD Reason.undef)),
          some []⟩ : TokenState)).setTok (n + 2)
        (⟨true, true,
          Reason.list ((dl.set i (some r)).map (fun o => o.getD Reason.undef)),
          none⟩ : TokenState)).getTok (i + 2) =
        (⟨true, true, r, some [Cb.allHandler 0 (n + 2) (inputsList n)]⟩ : TokenState) := by
      rw [getTok_setTok, if_neg (by rintro ⟨he, _⟩; omega),
        getTok_setTok, if_neg (by rintro ⟨he, _⟩; omega),
        getTok_setCell, getTok_setTok,
        if_pos (⟨rfl, by rw [allStore_length n dl hlen]; omega⟩ : _ ∧ _)]
    have hD2 : ((((((allStore n dl).setTok (i + 2)
        (⟨true, true, r, some [Cb.allHandler 0 (n + 2) (inputsList n)]⟩ :
          TokenState)).setCell 0
        ((n : Int) - (dl.countP (fun o => o.isSome) : Int) - 1)).setTok (n + 2)
        (⟨true, true,
          Reason.list ((dl.set i (some r)).map (fun o => o.getD Reason.undef)),
          some []⟩ : TokenState)).setTok (n + 2)
        (⟨true, true,
          Reason.list ((dl.set i (some r)).map (fun o => o.getD Reason.undef)),
          none⟩ : TokenState)).disposeTok (i + 2)) =
        ((((((allStore n dl).setTok (i + 2)
        (⟨true, true, r, some [Cb.allHandler 0 (n + 2) (inputsList n)]⟩ :
          TokenState)).setCell 0
        ((n : Int) - (dl.countP (fun o => o.isSome) : Int) - 1)).setTok (n + 2)
        (⟨true, true,
          Reason.list ((dl.set i (some r)).map (fun o => o.getD Reason.undef)),
          some []⟩ : TokenState)).setTok (n + 2)
        (⟨true, true,
          Reason.list ((dl.set i (some r)).map (fun o => o.getD Reason.undef)),
          none⟩ : TokenState)).setTok (i + 2)
        (⟨true, true, r, none⟩ : TokenState)) := by
      rw [disposeTok_eq, hX3]
    rw [hD1, hD2]
    refine Prod.ext ?_ rfl
    refine storeExt _ _ ?_ ?_ ?_ ?_
    · show ((((cancelledTokInit :: continueTokInit ::
          (dl.map (mkInputTok n) ++ [mkCombTok n dl])).set (i + 2)
          (⟨true, true, r, some [Cb.allHandler 0 (n + 2) (inputsList n)]⟩ :
            TokenState)).set (n + 2)
          (⟨true, true,
            Reason.list ((dl.set i (some r)).map (fun o => o.getD Reason.undef)),
            some []⟩ : TokenState)).set (n + 2)
          (⟨true, true,
            Reason.list ((dl.set i (some r)).map (fun o => o.getD Reason.undef)),
            none⟩ : TokenState)).set (i + 2)
          (⟨true, true, r, none⟩ : TokenState) =
        cancelledTokInit :: continueTokInit ::
          ((dl.set i (some r)).map (mkInputTok n) ++ [mkCombTok n (dl.set i (some r))])
      rw [List.set_set]
      rw [List.set_comm _ _ _ (show n + 2 ≠ i + 2 by omega)]
      rw [List.set_set]
      rw [hset2, hset2]
      rw [set_append_left (dl.map (mkInputTok n)) [mkCombTok n dl] i
        (⟨true, true, r, none⟩ : TokenState) (by rw [List.length_map, hlen]; exact hi)]
      rw [set_last (mkCombTok n dl)
        (⟨true, true,
          Reason.list ((dl.set i (some r)).map (fun o => o.getD Reason.undef)),
          none⟩ : TokenState)
        ((dl.map (mkInputTok n)).set i (⟨true, true, r, none⟩ : TokenState)) n
        (by rw [List.length_set, List.length_map, hlen])]
      rw [show (⟨true, true, r, none⟩ : TokenState) = mkInputTok n (some r) from rfl,
        map_set]
      rw [← mkCombTok_done (show 0 < n by omega) hall']
    · show [(n : Int) - (dl.countP (fun o => o.isSome) : Int) - 1] =
        [(n : Int) - ((dl.set i (some r)).countP (fun o => o.isSome) : Int)]
      rw [countP_set_some dl i r (by omega) hnone]
      congr 1
      push_cast
      ring
    · rfl
    · rfl
  · -- the countdown stays positive: only the counter is decremented
    have hallF2 : (dl.set i (some r)).all Option.isSome = false := by
      cases hb2 : (dl.set i (some r)).all Option.isSome
      · rfl
      · exfalso
        have h := (all_isSome_iff_countP _).1 hb2
        rw [List.length_set, countP_set_some dl i r (by omega) hnone, hlen] at h
        omega
    rw [if_neg hv]
    dsimp only
    simp only [Bool.false_eq_true, if_false]
    rw [runCbs_nil]
    dsimp only
    simp only [Bool.false_eq_true, if_false]
    have hX : (((allStore n dl).setTok (i + 2)
        (⟨true, true, r, some [Cb.allHandler 0 (n + 2) (inputsList n)]⟩ :
          TokenState)).setCell 0
        ((n : Int) - (dl.countP (fun o => o.isSome) : Int) - 1)).getTok (i + 2) =
        (⟨true, true, r, some [Cb.allHandler 0 (n + 2) (inputsList n)]⟩ : TokenState) := by
      rw [getTok_setCell, getTok_setTok,
        if_pos (⟨rfl, by rw [allStore_length n dl hlen]; omega⟩ : _ ∧ _)]
    rw [disposeTok_eq, hX]
    refine Prod.ext ?_ rfl
    refine storeExt _ _ ?_ ?_ ?_ ?_
    · show ((cancelledTokInit :: continueTokInit ::
          (dl.map (mkInputTok n) ++ [mkCombTok n dl])).set (i + 2)
          (⟨true, true, r, some [Cb.allHandler 0 (n + 2) (inputsList n)]⟩ :
            TokenState)).set (i + 2)
          (⟨true, true, r, none⟩ : TokenState) =
        cancelledTokInit :: continueTokInit ::
          ((dl.set i (some r)).map (mkInputTok n) ++ [mkCombTok n (dl.set i (some r))])
      rw [List.set_set, hset2]
      rw [set_append_left (dl.map (mkInputTok n)) [mkCombTok n dl] i
        (⟨true, true, r, none⟩ : TokenState) (by rw [List.length_map, hlen]; exact hi)]
      rw [show (⟨true, true, r, none⟩ : TokenState) = mkInputTok n (some r) from rfl,
        map_set]
      rw [mkCombTok_fresh hallF, mkCombTok_fresh hallF2]
    · show [(n : Int) - (dl.countP (fun o => o.isSome) : Int) - 1] =
        [(n : Int) - ((dl.set i (some r)).countP (fun o => o.isSome) : Int)]
      rw [countP_set_some dl i r (by omega) hnone]
      congr 1
      push_cast
      ring
    · rfl
    · rfl

/-! ### Arbitrary sequences of distinct-source cancellations -/

theorem applySeq_allStore (env : Nat → Reason → Bool) (fuel n : Nat) :
    ∀ (seq : List (Nat × Reason)) (dl : List (Option Reason)), dl.length = n →
      (∀ p ∈ seq, p.1 < n) → (seq.map Prod.fst).Nodup →
      (∀ p ∈ seq, nthD none dl p.1 = none) →
      applySeq env (fuel + 2) (allStore n dl) seq =
        allStore n (seq.foldl (fun acc p => acc.set p.1 (some p.2)) dl) := by
  intro seq
  induction seq with
  | nil =>
    intro dl _ _ _ _
    rfl
  | cons p rest ih =>
    intro dl hlen hb hnd hnone
    have hp1 : p.1 < n := hb p (List.mem_cons_self p rest)
    have hpn : nthD none dl p.1 = none := hnone p (List.mem_cons_self p rest)
    rw [show applySeq env (fuel + 2) (allStore n dl) (p :: rest) =
      applySeq env (fuel + 2)
        (cancelToken env (fuel + 2) (allStore n dl) (p.1 + 2) p.2).1 rest from rfl]
    rw [all_step env fuel n p.1 p.2 dl hlen hp1 hpn]
    have hnd2 : (rest.map Prod.fst).Nodup := by
      rw [List.map_cons] at hnd
      exact hnd.of_cons
    have hhead : p.1 ∉ rest.map Prod.fst := by
      rw [List.map_cons] at hnd
      exact (List.nodup_cons.1 hnd).1
    have hih := ih (dl.set p.1 (some p.2)) (by rw [List.length_set]; exact hlen)
      (fun q hq => hb q (List.mem_cons_of_mem p hq)) hnd2
      (fun q hq => by
        have hqp : q.1 ≠ p.1 := by
          intro he
          exact hhead (he ▸ List.mem_map_of_mem Prod.fst hq)
        rw [nthD_set]
        rw [if_neg (by rintro ⟨he, _⟩; exact hqp he.symm)]
        exact hnone q (List.mem_cons_of_mem p hq))
    exact hih

/-! ### Reading off the wired `all` store -/

theorem allStore_comb_cancelled (n : Nat) (DL : List (Option Reason)) (hn : 0 < n)
    (hlenF : DL.length = n) :
    ((allStore n DL).getTok (n + 2))._isCancelled = true ↔
      DL.all Option.isSome = true := by
  rw [allStore_getTok_comb n DL hlenF]
  constructor
  · intro hc
    cases hbb : DL.all Option.isSome
    · exfalso
      rw [mkCombTok_fresh hbb] at hc
      exact absurd hc (by decide)
    · rfl
  · intro hall
    rw [mkCombTok_done hn hall]

theorem allStore_input_cancelled (n : Nat) (DL : List (Option Reason)) (i : Nat)
    (hlenF : DL.length = n) (hi : i < n) :
    ((allStore n DL).getTok (i + 2))._isCancelled = (nthD none DL i).isSome := by
  rw [allStore_getTok_input n DL i hlenF hi]
  cases nthD none DL i <;> rfl

/-! ### Claim theorem C6 -/

/-- C6 counterexample: the claim fails without distinctness and non-emptiness
of the input list.  With the duplicated input list `[t, t]` (`t` the token of
one fresh source), the JS `Set` collapses the twice-registered countdown
handler into one entry, so after cancelling `t` every token in the input list
is cancelled while the combined token (identity `3`) is not.  With the empty
input list, every input is vacuously cancelled while the combined token
(identity `2`) is not (and never becomes) cancelled. -/
theorem all_iff_without_distinctness_cex :
    ((cancelToken envNone 2 (allModel envNone 2 (initStore.createTok).1 [2, 2]).1 2
        (.mk 5)).1.getTok 2)._isCancelled = true ∧
    (∀ j ∈ [2, 2],
      (((cancelToken envNone 2 (allModel envNone 2 (initStore.createTok).1 [2, 2]).1 2
        (.mk 5)).1.getTok j)._isCancelled = true)) ∧
    (allModel envNone 2 (initStore.createTok).1 [2, 2]).2 = 3 ∧
    ((cancelToken envNone 2 (allModel envNone 2 (initStore.createTok).1 [2, 2]).1 2
        (.mk 5)).1.getTok 3)._isCancelled = false ∧
    (allModel envNone 2 initStore []).2 = 2 ∧
    ((allModel envNone 2 initStore []).1.getTok 2)._isCancelled = false ∧
    ((allModel envNone 2 initStore []).1.getTok 2)._canBeCancelled = true := by
  refine ⟨rfl, ?_, rfl, rfl, rfl, rfl, rfl⟩
  intro j hj
  rcases List.mem_cons.1 hj with h | hj2
  · subst h
    rfl
  · rcases List.mem_cons.1 hj2 with h | hj3
    · subst h
      rfl
    · cases hj3

/-- C6 (corrected): over a non-empty family of `n` pairwise-distinct fresh
cancellable sources, `all` registers the countdown handler on every input and
returns the combined token `n + 2`; after any sequence of cancellations of
pairwise-distinct sources, the combined token is cancelled if and only if
every input token is cancelled, and once cancelled its reason is the list of
the inputs' individual reasons in input order.  (The original claim is false
for an input list with duplicate tokens and for the empty input list.) -/
theorem all_combined_iff_every_input (env : Nat → Reason → Bool)
    (g fuel n : Nat) (seq : List (Nat × Reason)) (hn : 0 < n)
    (hb : ∀ p ∈ seq, p.1 < n) (hnd : (seq.map Prod.fst).Nodup) :
    allModel env g (baseStore n) (inputsList n) =
      (allStore n (List.replicate n none), n + 2) ∧
    ((((applySeq env (fuel + 2) (allStore n (List.replicate n none)) seq).getTok
        (n + 2))._isCancelled = true) ↔
      (∀ i, i < n → (((applySeq env (fuel + 2) (allStore n (List.replicate n none))
        seq).getTok (i + 2))._isCancelled = true))) ∧
    ((((applySeq env (fuel + 2) (allStore n (List.replicate n none)) seq).getTok
        (n + 2))._isCancelled = true) →
      ((applySeq env (fuel + 2) (allStore n (List.replicate n none)) seq).getTok
        (n + 2))._reason =
        Reason.list ((List.range n).map (fun i =>
          ((applySeq env (fuel + 2) (allStore n (List.replicate n none)) seq).getTok
            (i + 2))._reason))) := by
  have hA := applySeq_allStore env fuel n seq (List.replicate n none)
    (List.length_replicate n none) hb hnd (fun p _ => nthD_replicate_none n p.1)
  obtain ⟨DL, hDL⟩ : ∃ DL, (seq.foldl (fun acc p => acc.set p.1 (some p.2))
      (List.replicate n none)) = DL := ⟨_, rfl⟩
  rw [hDL] at hA
  have hlenF : DL.length = n := by
    rw [← hDL, foldl_set_length, List.length_replicate]
  refine ⟨all_wire env g n, ?_, ?_⟩
  · rw [hA, allStore_comb_cancelled n DL hn hlenF]
    constructor
    · intro hall i hi
      rw [allStore_input_cancelled n DL i hlenF hi]
      have hmem := nthD_mem none DL i (by rw [hlenF]; exact hi)
      exact List.all_eq_true.1 hall _ hmem
    · intro hin
      rw [List.all_eq_true]
      intro o ho
      rcases mem_nthD none DL o ho with ⟨j, hj, he⟩
      have hj' : j < n := by rw [hlenF] at hj; exact hj
      have h2 := hin j hj'
      rw [allStore_input_cancelled n DL j hlenF hj'] at h2
      rw [he] at h2
      exact h2
  · intro hc
    rw [hA] at hc ⊢
    have hall : DL.all Option.isSome = true :=
      (allStore_comb_cancelled n DL hn hlenF).1 hc
    have hmapeq : (List.range n).map (fun i =>
        ((allStore n DL).getTok (i + 2))._reason) =
        DL.map (fun o => o.getD Reason.undef) := by
      have hcg : ∀ i ∈ List.range n,
          (fun i => ((allStore n DL).getTok (i + 2))._reason) i =
          (fun i => (fun o => o.getD Reason.undef) (nthD none DL i)) i := by
        intro i hi
        have hi' := List.mem_range.1 hi
        show ((allStore n DL).getTok (i + 2))._reason =
          (nthD none DL i).getD Reason.undef
        rw [allStore_getTok_input n DL i hlenF hi', mkInputTok_reason]
      rw [List.map_congr_left hcg]
      exact map_range_nthD (fun o => o.getD Reason.undef) DL n hlenF
    rw [hmapeq, allStore_getTok_comb n DL hlenF, mkCombTok_done hn hall]

/-- C6 witness: two fresh distinct sources, cancelled in order with reasons
`mk 1` and `mk 2`. -/
theorem all_combined_iff_every_input_witness :
    allModel envNone 2 (baseStore 2) (inputsList 2) =
      (allStore 2 (List.replicate 2 none), 4) ∧
    ((((applySeq envNone 2 (allStore 2 (List.replicate 2 none))
        [(0, Reason.mk 1), (1, Reason.mk 2)]).getTok 4)._isCancelled = true) ↔
      (∀ i, i < 2 → (((applySeq envNone 2 (allStore 2 (List.replicate 2 none))
        [(0, Reason.mk 1), (1, Reason.mk 2)]).getTok (i + 2))._isCancelled = true))) ∧
    ((((applySeq envNone 2 (allStore 2 (List.replicate 2 none))
        [(0, Reason.mk 1), (1, Reason.mk 2)]).getTok 4)._isCancelled = true) →
      ((applySeq envNone 2 (allStore 2 (List.replicate 2 none))
        [(0, Reason.mk 1), (1, Reason.mk 2)]).getTok 4)._reason =
        Reason.list ((List.range 2).map (fun i =>
          ((applySeq envNone 2 (allStore 2 (List.replicate 2 none))
            [(0, Reason.mk 1), (1, Reason.mk 2)]).getTok (i + 2))._reason))) :=
  all_combined_iff_every_input envNone 2 0 2 [(0, .mk 1), (1, .mk 2)]
    (by decide) (by decide) (by decide)
